import Mathlib

/-!
Verification of the CAD drawing-comparison backend against its specification.

Each definition is a shallow embedding of the corresponding Python function
from `src/backend/app/`, with Python floats modelled as exact rationals (`ℚ`),
Python `None` as `Option`, and Python dicts as structures whose fields hold
the values the source reads out of them.
-/

namespace Py

/-- Python whitespace as stripped by `str.strip()`. -/
def isSpaceChar (c : Char) : Bool :=
  c = ' ' ∨ c = '\t' ∨ c = '\n' ∨ c = '\r' ∨ c = '\x0b' ∨ c = '\x0c'

/-- ASCII lower-casing of one character (`str.lower()` on the drawing data,
which is ASCII). -/
def lowerChar (c : Char) : Char :=
  if 'A' ≤ c ∧ c ≤ 'Z' then Char.ofNat (c.toNat + 32) else c

/-- Embeds `s.lower()`. -/
def lower (s : String) : String := ⟨s.data.map lowerChar⟩

/-- Embeds `s.strip()`: drop leading and trailing whitespace. -/
def strip (s : String) : String :=
  ⟨((s.data.dropWhile isSpaceChar).reverse.dropWhile isSpaceChar).reverse⟩

end Py

namespace Comparator

/-- Status strings produced by the comparator
(`src/backend/app/agents/comparator.py`). -/
inductive Status where
  | pass | warning | deviation | fail | pending | notFound
  deriving DecidableEq, Repr

/-- A dimension dict as read by the comparator.  String-valued fields hold
`""` where the Python dict holds `None` or a missing key (the source only
tests them for truthiness and equality); numeric fields hold the result of
`_to_float` on the raw value; `coordX`/`coordY` hold the result of
`(dim.get("coordinates") or {}).get("x"/"y", -1)`. -/
structure CompDim where
  feature_type : String := ""
  zone : String := ""
  item_number : String := ""
  tolerance_class : String := ""
  unit : String := "mm"
  value : Option ℚ := none
  nominal : Option ℚ := none
  upper_tol : Option ℚ := none
  lower_tol : Option ℚ := none
  coordinates : Option (ℚ × ℚ) := none
  ocr_verified : Option Bool := none
  validation_failed : Bool := false
  deriving Repr, DecidableEq

instance : Inhabited CompDim := ⟨{}⟩

/-- Embeds `(dim.get("coordinates") or {}).get("x", -1)`. -/
def coordX (d : CompDim) : ℚ := (d.coordinates.getD (-1, -1)).1

/-- Embeds `(dim.get("coordinates") or {}).get("y", -1)`. -/
def coordY (d : CompDim) : ℚ := (d.coordinates.getD (-1, -1)).2

/-- Embeds `master_dim.get("nominal") or master_dim.get("value")` followed by
`_to_float`, with `None` defaulting to `0` — the extraction at the top of
`_evaluate_tolerance`.  Python's `or` falls through when the first operand
is `None` or `0`. -/
def extractNominal (m : CompDim) : ℚ :=
  match m.nominal with
  | some q => if q ≠ 0 then q else (m.value.getD 0)
  | none => m.value.getD 0

/-- Embeds `_to_float(master_dim.get("upper_tol")) or 0` — both `None` and `0.0`
collapse to `0`. -/
def extractTol (t : Option ℚ) : ℚ := t.getD 0

/-- Embeds `abs_dev / abs_nominal` — the `pct_change` computed by
`_evaluate_tolerance` (its `nominal != 0` guard is already settled by the
enclosing branch). -/
def pctChange (deviation nominal : ℚ) : ℚ := |deviation| / |nominal|

/-- Embeds `_evaluate_tolerance(master_dim, check_dim)` from
`src/backend/app/agents/comparator.py`: classify a matched pair into
pass / warning / deviation / fail / pending and report the deviation,
where `deviation = actual - nominal` and `tol_range = max(|upper|,|lower|)`. -/
def evaluateTolerance (m c : CompDim) : Status × Option ℚ :=
  if extractNominal m = 0 then (Status.pending, none)
  else if extractTol m.upper_tol = 0 ∧ extractTol m.lower_tol = 0 then
    if |c.value.getD 0 - extractNominal m| < 1/1000 then
      (Status.pass, some (c.value.getD 0 - extractNominal m))
    else if pctChange (c.value.getD 0 - extractNominal m) (extractNominal m) < 1/100 then
      (Status.pass, some (c.value.getD 0 - extractNominal m))
    else if pctChange (c.value.getD 0 - extractNominal m) (extractNominal m) < 5/100 then
      (Status.warning, some (c.value.getD 0 - extractNominal m))
    else (Status.deviation, some (c.value.getD 0 - extractNominal m))
  else if extractTol m.lower_tol ≤ c.value.getD 0 - extractNominal m ∧
      c.value.getD 0 - extractNominal m ≤ extractTol m.upper_tol then
    (Status.pass, some (c.value.getD 0 - extractNominal m))
  else if max |extractTol m.upper_tol| |extractTol m.lower_tol| > 0 ∧
      |c.value.getD 0 - extractNominal m| ≤
        max |extractTol m.upper_tol| |extractTol m.lower_tol| * (12/10) then
    (Status.warning, some (c.value.getD 0 - extractNominal m))
  else if pctChange (c.value.getD 0 - extractNominal m) (extractNominal m) > 10/100 then
    (Status.deviation, some (c.value.getD 0 - extractNominal m))
  else (Status.fail, some (c.value.getD 0 - extractNominal m))

/-- The classification exactly as the specification's Phase-3 table words it,
over the already-extracted `(nominal, upper, lower, actual)`. -/
def specToleranceTable (nominal upper lower actual : ℚ) : Status × Option ℚ :=
  if nominal = 0 then (Status.pending, none)
  else if upper = 0 ∧ lower = 0 then
    if |actual - nominal| < 1/1000 ∨ |actual - nominal| / |nominal| < 1/100 then
      (Status.pass, some (actual - nominal))
    else if |actual - nominal| / |nominal| < 5/100 then
      (Status.warning, some (actual - nominal))
    else (Status.deviation, some (actual - nominal))
  else if lower ≤ actual - nominal ∧ actual - nominal ≤ upper then
    (Status.pass, some (actual - nominal))
  else if |actual - nominal| ≤ (12/10) * max |upper| |lower| then
    (Status.warning, some (actual - nominal))
  else if |actual - nominal| / |nominal| > 10/100 then
    (Status.deviation, some (actual - nominal))
  else (Status.fail, some (actual - nominal))

/-- The pattern `pat` matches at the head of `s` (helper for Python's substring `in`). -/
def headMatch : List Char → List Char → Bool
  | [], _ => true
  | _ :: _, [] => false
  | a :: as, b :: bs => a = b && headMatch as bs

/-- Python's substring containment `pat in s` on character lists. -/
def containsSub (pat : List Char) : List Char → Bool
  | [] => pat.isEmpty
  | b :: bs => headMatch pat (b :: bs) || containsSub pat bs

/-- Feature-type points of `_find_best_match`: +6 for an exact
(lower-cased) match, +4 for substring containment, guarded by both
feature types being non-empty (Python truthiness). -/
def featurePoints (m c : CompDim) : ℤ :=
  if (Py.lower m.feature_type) ≠ "" ∧ (Py.lower c.feature_type) ≠ "" then
    if (Py.lower m.feature_type) = (Py.lower c.feature_type) then 6
    else if containsSub (Py.lower m.feature_type).toList (Py.lower c.feature_type).toList ∨
        containsSub (Py.lower c.feature_type).toList (Py.lower m.feature_type).toList then 4
    else 0
  else 0

/-- Zone points: +3 when the master zone is truthy and the check zone equals it. -/
def zonePoints (m c : CompDim) : ℤ :=
  if m.zone ≠ "" ∧ c.zone = m.zone then 3 else 0

/-- Item-number points: +3 when the master item number is truthy and equal. -/
def itemPoints (m c : CompDim) : ℤ :=
  if m.item_number ≠ "" ∧ c.item_number = m.item_number then 3 else 0

/-- Value-proximity points: `ratio = |m_val − c_val| / max(|m_val|, 0.001)`,
+3 / +2 / +1 below 1% / 10% / 30%, only when both values are non-zero. -/
def valuePoints (m c : CompDim) : ℤ :=
  if m.value.getD 0 ≠ 0 ∧ c.value.getD 0 ≠ 0 then
    if |m.value.getD 0 - c.value.getD 0| / max |m.value.getD 0| (1/1000) < 1/100 then 3
    else if |m.value.getD 0 - c.value.getD 0| / max |m.value.getD 0| (1/1000) < 10/100 then 2
    else if |m.value.getD 0 - c.value.getD 0| / max |m.value.getD 0| (1/1000) < 30/100 then 1
    else 0
  else 0

/-- Coordinate-proximity points: the source compares
`math.hypot(mx−cx, my−cy)` against 100 / 250 / 400; since both sides are
non-negative this is equivalent to comparing the squared distance against
the squared thresholds, which keeps the embedding inside `ℚ`. -/
def coordPoints (m c : CompDim) : ℤ :=
  if coordX m ≥ 0 ∧ coordX c ≥ 0 then
    if (coordX m - coordX c)^2 + (coordY m - coordY c)^2 < 100^2 then 3
    else if (coordX m - coordX c)^2 + (coordY m - coordY c)^2 < 250^2 then 2
    else if (coordX m - coordX c)^2 + (coordY m - coordY c)^2 < 400^2 then 1
    else 0
  else 0

/-- Tolerance-class points: +2 case-sensitive equality, +1 when only the
case differs, guarded by both stripped classes being non-empty. -/
def tolClassPoints (m c : CompDim) : ℤ :=
  if (Py.strip m.tolerance_class) ≠ "" ∧ (Py.strip c.tolerance_class) ≠ "" then
    if (Py.strip m.tolerance_class) = (Py.strip c.tolerance_class) then 2
    else if Py.lower (Py.strip m.tolerance_class) = Py.lower (Py.strip c.tolerance_class) then 1
    else 0
  else 0

/-- Unit points: +1 when `master_dim.get("unit", "mm") == c_dim.get("unit", "mm")`. -/
def unitPoints (m c : CompDim) : ℤ :=
  if m.unit = c.unit then 1 else 0

/-- The additive part of the `_find_best_match` score. -/
def baseScore (m c : CompDim) : ℤ :=
  featurePoints m c + zonePoints m c + itemPoints m c + valuePoints m c +
    coordPoints m c + tolClassPoints m c + unitPoints m c

/-- The full `_find_best_match` score: base points, then
`score = max(0, score − 2)` for `ocr_verified is False`, then again for a
truthy `validation_failed` on the check dimension. -/
def matchScore (m c : CompDim) : ℤ :=
  let s1 := baseScore m c
  let s2 := if c.ocr_verified = some false then max 0 (s1 - 2) else s1
  if c.validation_failed then max 0 (s2 - 2) else s2

/-- The scanning loop of `_find_best_match`: walk the check dimensions with
their indices, skip indices already in `used_indices`, and keep the running
`(best_idx, best_score)` pair, replacing it only on a strictly greater
score (so the first-scanned dimension wins ties).  The accumulator starts
at `(None, −1)`. -/
def bestLoop (m : CompDim) (used : List ℕ) :
    List CompDim → ℕ → Option ℕ × ℤ → Option ℕ × ℤ
  | [], _, best => best
  | c :: rest, i, best =>
      bestLoop m used rest (i + 1)
        (if i ∈ used then best
         else if matchScore m c > best.2 then (some i, matchScore m c) else best)

/-- Embeds `_find_best_match(master_dim, check_dims, used_indices)`: run the scan
and accept the best index only when its score is at least 2. -/
def findBestMatch (m : CompDim) (checks : List CompDim) (used : List ℕ) :
    Option (ℕ × CompDim) :=
  match bestLoop m used checks 0 (none, -1) with
  | (some i, s) => if s ≥ 2 then some (i, checks.getD i default) else none
  | (none, _) => none

/-- Concrete master dimension used as a witness input for the matcher. -/
def mEx : CompDim := { feature_type := "diameter" }

/-- Concrete check dimension used as a witness input for the matcher. -/
def cEx : CompDim := { feature_type := "diameter" }

end Comparator

namespace Py

/-- Python `int()` on a float: truncation toward zero. -/
def pyInt (q : ℚ) : ℤ := if q < 0 then ⌈q⌉ else ⌊q⌋

end Py

namespace ReviewAgent

/-- One finding dict inside a review result.  Fields hold the `str()` image
of what the dict carries at `value` / `location` / `master_value` (`""` for
a missing key, as `item.get(f, "")` produces). -/
structure Finding where
  value : String := ""
  location : String := ""
  master_value : String := ""
  deriving Repr, DecidableEq

/-- Embeds `str(·).strip().lower()` — the canonicalisation used by the dedup keys
in `run_review` (`src/backend/app/agents/review_agent.py`). -/
def canon (s : String) : String := Py.lower (Py.strip s)

/-- The `("value", "location")` dedup key. -/
def keyVL (it : Finding) : String × String := (canon it.value, canon it.location)

/-- The `("master_value", "location")` dedup key. -/
def keyMV (it : Finding) : String × String := (canon it.master_value, canon it.location)

/-- Embeds `_dedup(items, key_fields)` from `run_review`: keep the first item for
each key, accumulating the keys seen so far. -/
def dedup (key : Finding → String × String) :
    List Finding → List (String × String) → List Finding
  | [], _ => []
  | x :: xs, seen =>
      if key x ∈ seen then dedup key xs seen
      else x :: dedup key xs (key x :: seen)

/-- The review-result dict `run_review` assembles (regions are mutated only
inside individual findings and are irrelevant to the dedup law, so they are
not modelled). -/
structure ReviewResult where
  missing_dimensions : List Finding := []
  missing_tolerances : List Finding := []
  modified_values : List Finding := []
  summary : Option String := none
  deriving Repr, DecidableEq

/-- The server-side deduplication section of `run_review`: dedup the three
lists, then drop from `missing_dimensions` every finding whose
`(value, location)` key occurs among the `(master_value, location)` keys of
the deduplicated `modified_values`. -/
def dedupReview (r : ReviewResult) : ReviewResult :=
  let md := dedup keyVL r.missing_dimensions []
  let mt := dedup keyVL r.missing_tolerances []
  let mv := dedup keyMV r.modified_values []
  let modifiedKeys := mv.map keyMV
  { r with
      missing_dimensions := md.filter (fun it => !(modifiedKeys.contains (keyVL it))),
      missing_tolerances := mt,
      modified_values := mv }

/-- The f-string summary `run_review` builds from the three list lengths. -/
def countSummary (r : ReviewResult) : String :=
  toString r.missing_dimensions.length ++ " dimensions missing, " ++
    toString r.missing_tolerances.length ++ " tolerances missing, " ++
    toString r.modified_values.length ++ " values modified"

/-- Embeds `if "summary" not in final_result: …` — fill in the count summary. -/
def withSummary (r : ReviewResult) : ReviewResult :=
  match r.summary with
  | some _ => r
  | none => { r with summary := some (countSummary r) }

/-- The default dict used when no round produced parseable JSON. -/
def parseFailResult : ReviewResult :=
  { summary := some "Error: Could not parse review results" }

/-- The control flow of `run_review`: each round argument is `.error ()`
when the provider call raises and `.ok p` when it returns, with `p` the
round's `_parse_json` result.  Round 1 (`_claude_initial_review`) and round
3 (`_claude_final_merge`) contain no `try`, so an exception there leaves
`run_review`; the round-2 Gemini call is wrapped in `try/except` and a
failure only makes its parse result `None`.  Region refinement and scaling
touch only per-finding region fields and are omitted. -/
def runReview (r1 r2 r3 : Except Unit (Option ReviewResult)) :
    Except Unit ReviewResult :=
  match r1 with
  | .error e => .error e
  | .ok claude_result =>
      let gemini_result : Option ReviewResult :=
        match r2 with
        | .error _ => none
        | .ok g => g
      match r3 with
      | .error e => .error e
      | .ok final_parsed =>
          let final0 := final_parsed.getD
            (gemini_result.getD (claude_result.getD parseFailResult))
          .ok (withSummary (dedupReview final0))

end ReviewAgent

/-- A concrete review result exercising the dedup postprocessing. -/
def rEx : ReviewAgent.ReviewResult :=
  { missing_dimensions := [{ value := "10", location := "A" }]
  , modified_values := [{ master_value := "12", location := "B" }] }

namespace ReviewAgent

/-- A percentage-based region dict as consumed by `_scale_region`
(`src/backend/app/agents/review_agent.py`); `none` stands for a missing
key, read through `region.get(k, default)`. -/
structure Rect where
  x : Option ℚ := none
  y : Option ℚ := none
  width : Option ℚ := none
  height : Option ℚ := none
  deriving Repr, DecidableEq

/-- Embeds `max(0, int(region.get(c, 0) / 100 * size))` — the x / y computation
of `_scale_region`. -/
def clampedStart (pct : ℚ) (size : ℤ) : ℤ := max 0 (Py.pyInt (pct / 100 * size))

/-- Embeds `max(10, int(region.get(c, d) / 100 * size))` — the width / height
computation of `_scale_region` before the fit-to-image step. -/
def clampedLen (pct : ℚ) (size : ℤ) : ℤ := max 10 (Py.pyInt (pct / 100 * size))

/-- Embeds `if start + len > size: len = size - start` — shrink the box to stay
inside the image. -/
def fitLen (start len size : ℤ) : ℤ := if start + len > size then size - start else len

/-- Embeds `_scale_region(region, img_width, img_height)`: convert a
percentage-based region to pixels, clamping as the source does. -/
def scaleRegion (region : Option Rect) (img_width img_height : ℤ) :
    Option (ℤ × ℤ × ℤ × ℤ) :=
  match region with
  | none => none
  | some r =>
      let x := clampedStart (r.x.getD 0) img_width
      let y := clampedStart (r.y.getD 0) img_height
      let w := fitLen x (clampedLen (r.width.getD 8) img_width) img_width
      let h := fitLen y (clampedLen (r.height.getD 5) img_height) img_height
      some (x, y, w, h)

end ReviewAgent

namespace Ingestor

/-- One raw coordinate component as `_scale_coordinates`
(`src/backend/app/agents/ingestor.py`) reads it from the dict: the key may
be missing (`.get("x", 0)` gives 0), hold `None` (replaced by 0), a value
`float()` accepts, or one on which `float()` raises. -/
inductive CoordVal where
  | missing
  | null
  | num (q : ℚ)
  | nonNumeric
  deriving Repr, DecidableEq

/-- The `float(x)` step after the `None` replacement: `none` means the
`except (TypeError, ValueError)` branch fires. -/
def coordFloat : CoordVal → Option ℚ
  | .missing => some 0
  | .null => some 0
  | .num q => some q
  | .nonNumeric => none

/-- Embeds `_scale_coordinates(coords, img_width, img_height)`: percentage-range
pairs are scaled against the image size, anything else is treated as
already pixel-valued; results are truncated to integers and clamped to
`[0, size − 1]`; a falsy dict or a non-numeric component yields `(0, 0)`. -/
def scaleCoordinates (coords : Option (CoordVal × CoordVal))
    (img_width img_height : ℤ) : ℤ × ℤ :=
  match coords with
  | none => (0, 0)
  | some (cx, cy) =>
      match coordFloat cx, coordFloat cy with
      | some x, some y =>
          if 0 ≤ x ∧ x ≤ 100 ∧ 0 ≤ y ∧ y ≤ 100 then
            (max 0 (min (Py.pyInt (x / 100 * img_width)) (img_width - 1)),
             max 0 (min (Py.pyInt (y / 100 * img_height)) (img_height - 1)))
          else
            (max 0 (min (Py.pyInt x) (img_width - 1)),
             max 0 (min (Py.pyInt y) (img_height - 1)))
      | _, _ => (0, 0)

end Ingestor

namespace OcrPreprocess

/-- Word characters for the regex `\b` boundary: `[A-Za-z0-9_]`. -/
def isWordChar (c : Char) : Bool :=
  c.isAlpha || c.isDigit || c = '_'

/-- Consume the regex `[+-]?` at the head of the text. -/
def dropSign : List Char → List Char
  | c :: cs => if c = '+' ∨ c = '-' then cs else c :: cs
  | [] => []

/-- Consume the regex `\d+\.?\d*` at the head of the text, returning the
rest, or `none` when there is no leading digit. -/
def matchNum : List Char → Option (List Char)
  | c :: cs =>
      if c.isDigit then
        match (c :: cs).dropWhile Char.isDigit with
        | '.' :: cs2 => some (cs2.dropWhile Char.isDigit)
        | cs1 => some cs1
      else none
  | [] => none

/-- Embeds `^[+-]?\d+\.?\d*\s*(mm|in|cm|m)?$` — the first ("dimension") pattern of
`_classify_text` (`src/backend/app/agents/ocr_preprocess.py`). -/
def isDimPattern (t : List Char) : Bool :=
  match matchNum (dropSign t) with
  | some rest =>
      let rest2 := rest.dropWhile Py.isSpaceChar
      rest2.isEmpty || rest2 = ['m', 'm'] || rest2 = ['i', 'n'] ||
        rest2 = ['c', 'm'] || rest2 = ['m']
  | none => false

/-- Embeds `^[+-]\d+\.?\d*$` — the ("tolerance") pattern of `_classify_text`. -/
def isTolPattern (t : List Char) : Bool :=
  match t with
  | c :: cs =>
      if c = '+' ∨ c = '-' then
        match matchNum cs with
        | some rest => rest.isEmpty
        | none => false
      else false
  | [] => false

/-- Embeds `startswith(('Ø','ø','φ','Φ','⌀'))` or `^[Dd]ia\.?\s*\d`. -/
def isDiameterPattern (t : List Char) : Bool :=
  match t with
  | c :: cs =>
      (c = 'Ø' ∨ c = 'ø' ∨ c = 'φ' ∨ c = 'Φ' ∨ c = '⌀') ||
      ((c = 'D' ∨ c = 'd') &&
        match cs with
        | 'i' :: 'a' :: cs2 =>
            let cs3 := match cs2 with
              | '.' :: cs3 => cs3
              | _ => cs2
            match cs3.dropWhile Py.isSpaceChar with
            | d :: _ => d.isDigit
            | [] => false
        | _ => false)
  | [] => false

/-- Embeds `^[Rr]\d+\.?\d*$`. -/
def isRadiusPattern (t : List Char) : Bool :=
  match t with
  | c :: cs =>
      (c = 'R' ∨ c = 'r') &&
      (match matchNum cs with
       | some rest => rest.isEmpty
       | none => false)
  | [] => false

/-- One attempt of `re.search(r'\d+\.?\d*\s*[°˚º]', t)` at the current
position. -/
def degreeHere (t : List Char) : Bool :=
  match matchNum t with
  | some rest =>
      match rest.dropWhile Py.isSpaceChar with
      | d :: _ => d = '°' ∨ d = '˚' ∨ d = 'º'
      | [] => false
  | none => false

/-- Embeds `re.search(r'\d+\.?\d*\s*[°˚º]', t)`: try the pattern at every
position. -/
def searchDegree : List Char → Bool
  | [] => false
  | c :: cs => degreeHere (c :: cs) || searchDegree cs

/-- Embeds `endswith(('°','˚','º'))`. -/
def endsWithDegree (t : List Char) : Bool :=
  match t.reverse with
  | d :: _ => d = '°' ∨ d = '˚' ∨ d = 'º'
  | [] => false

/-- Embeds `^[Cc]\d+\.?\d*$` or `^\d+\.?\d*\s*[xX×]\s*45` (the second is a prefix
match). -/
def isChamferPattern (t : List Char) : Bool :=
  (match t with
   | c :: cs =>
       (c = 'C' ∨ c = 'c') &&
       (match matchNum cs with
        | some rest => rest.isEmpty
        | none => false)
   | [] => false) ||
  (match matchNum t with
   | some rest =>
       match rest.dropWhile Py.isSpaceChar with
       | x :: rest2 =>
           (x = 'x' ∨ x = 'X' ∨ x = '×') &&
           (match rest2.dropWhile Py.isSpaceChar with
            | '4' :: '5' :: _ => true
            | _ => false)
       | [] => false
   | none => false)

/-- Embeds `^M\d+` with `re.IGNORECASE`, or a case-sensitive search for `UN[CF]`. -/
def isThreadPattern (t : List Char) : Bool :=
  (match t with
   | c :: d :: _ => (c = 'M' ∨ c = 'm') && d.isDigit
   | _ => false) ||
  Comparator.containsSub ['U', 'N', 'C'] t ||
  Comparator.containsSub ['U', 'N', 'F'] t

/-- Embeds `'↧' in t` or `^(DEPTH|DP)\b` with `re.IGNORECASE`. -/
def isDepthPattern (t : List Char) : Bool :=
  t.contains '↧' ||
  (match t.map Py.lowerChar with
   | 'd' :: 'e' :: 'p' :: 't' :: 'h' :: rest =>
       match rest with
       | [] => true
       | c :: _ => !(isWordChar c)
   | 'd' :: 'p' :: rest =>
       match rest with
       | [] => true
       | c :: _ => !(isWordChar c)
   | _ => false)

/-- Embeds `^(THK|t\s*=)` with `re.IGNORECASE`, or `'thickness' in t.lower()`. -/
def isThicknessPattern (t : List Char) : Bool :=
  (match t.map Py.lowerChar with
   | 't' :: 'h' :: 'k' :: _ => true
   | 't' :: rest =>
       match rest.dropWhile Py.isSpaceChar with
       | '=' :: _ => true
       | _ => false
   | _ => false) ||
  Comparator.containsSub ['t','h','i','c','k','n','e','s','s'] (t.map Py.lowerChar)

/-- Embeds `^[A-Za-z]{1,2}\d{1,2}$` — tolerance classes like `H7`, `g6`, `js15`. -/
def isTolClassPattern (t : List Char) : Bool :=
  let isLetter := fun (c : Char) => ('A' ≤ c ∧ c ≤ 'Z') ∨ ('a' ≤ c ∧ c ≤ 'z')
  match t with
  | a :: rest =>
      isLetter a &&
      (let rest2 := match rest with
        | b :: rest2 => if isLetter b then rest2 else rest
        | [] => []
       match rest2 with
       | d :: rest3 =>
           d.isDigit &&
           (match rest3 with
            | [] => true
            | e :: rest4 => e.isDigit && rest4.isEmpty)
       | [] => false)
  | [] => false

/-- Embeds `any(s in t for s in ['⌀','⏥','⊥','∥','⊙','◎','⌖'])`. -/
def hasGdtSymbol (t : List Char) : Bool :=
  t.contains '⌀' || t.contains '⏥' || t.contains '⊥' || t.contains '∥' ||
    t.contains '⊙' || t.contains '◎' || t.contains '⌖'

/-- Embeds `^[A-Z]-[A-Z]$`. -/
def isSectionLabel (t : List Char) : Bool :=
  match t with
  | [a, '-', b] => ('A' ≤ a ∧ a ≤ 'Z') && ('A' ≤ b ∧ b ≤ 'Z')
  | _ => false

/-- Embeds `startswith('Ra') or startswith('Rz')`. -/
def isSurfaceFinish (t : List Char) : Bool :=
  match t with
  | 'R' :: 'a' :: _ => true
  | 'R' :: 'z' :: _ => true
  | _ => false

/-- Embeds `any(kw in t.lower() for kw in ['steel','aluminum','brass','aisi','astm','en-'])`. -/
def isMaterialText (t : List Char) : Bool :=
  let l := t.map Py.lowerChar
  Comparator.containsSub ['s','t','e','e','l'] l ||
  Comparator.containsSub ['a','l','u','m','i','n','u','m'] l ||
  Comparator.containsSub ['b','r','a','s','s'] l ||
  Comparator.containsSub ['a','i','s','i'] l ||
  Comparator.containsSub ['a','s','t','m'] l ||
  Comparator.containsSub ['e','n','-'] l

/-- Embeds `_classify_text(text)` from `src/backend/app/agents/ocr_preprocess.py`:
strip, then run the heuristic pattern chain in source order. -/
def classifyText (text : String) : String :=
  let t := (Py.strip text).data
  if isDimPattern t then "dimension"
  else if isTolPattern t then "tolerance"
  else if isDiameterPattern t then "diameter"
  else if isRadiusPattern t then "radius"
  else if searchDegree t || endsWithDegree t then "angular"
  else if isChamferPattern t then "chamfer"
  else if isThreadPattern t then "thread"
  else if isDepthPattern t then "depth"
  else if isThicknessPattern t then "thickness"
  else if isTolClassPattern t then "tolerance_class"
  else if hasGdtSymbol t then "gdt"
  else if isSectionLabel t then "section_label"
  else if isSurfaceFinish t then "surface_finish"
  else if isMaterialText t then "material"
  else "text"

end OcrPreprocess

namespace Comparator

/-- Issue constants of `comparator.py` (`ISSUE_MODIFIED_VALUE`, …). -/
inductive Issue where
  | modified_value | missing_dimension | missing_tolerance | symbol_mismatch
  deriving DecidableEq, Repr

/-- Embeds `_compare_dimension_values(master_val, check_val, feature_type)`:
detect decimal-place errors (magnitude ratio ≥ 10 ⇒ fail) and value
modifications (difference ≥ 0.01 ⇒ fail above 5 % difference, warning
below), `pass` within 0.01.  `percent_diff = difference / master_val * 100`
when the master value is non-zero.  The `feature_type` argument is unused
by the source. -/
def compareDimensionValues (masterVal checkVal : Option ℚ) : Status × Option Issue :=
  match masterVal, checkVal with
  | some mv, some cv =>
      if |mv - cv| < 1/100 then (Status.pass, none)
      else if min |mv| |cv| > 0 ∧ max |mv| |cv| / min |mv| |cv| ≥ 10 then
        (Status.fail, some Issue.modified_value)
      else if (if mv ≠ 0 then |mv - cv| / mv * 100 else 0) > 5 then
        (Status.fail, some Issue.modified_value)
      else (Status.warning, some Issue.modified_value)
  | _, _ => (Status.warning, none)

/-- Embeds `_compare_tolerances(master_dim, check_dim)`: when the master carries a
tolerance, a check with none is a `fail`/`missing_tolerance`, and unequal
tolerance values are a `warning`/`modified_value`; otherwise no issue. -/
def compareTolerances (mu ml cu cl : Option ℚ) : Option (Status × Issue) :=
  if mu ≠ none ∨ ml ≠ none then
    if cu = none ∧ cl = none then some (Status.fail, Issue.missing_tolerance)
    else if mu ≠ cu ∨ ml ≠ cl then some (Status.warning, Issue.modified_value)
    else none
  else none

/-- The status assembled by `_build_comparison` for a matched pair: the
`_evaluate_tolerance` result, downgraded from `pass` to `warning` on a
(case-sensitive) tolerance-class mismatch. -/
def buildStatus (m c : CompDim) : Status :=
  let s := (evaluateTolerance m c).1
  if Py.strip m.tolerance_class ≠ "" ∧ Py.strip c.tolerance_class ≠ "" ∧
      Py.strip m.tolerance_class ≠ Py.strip c.tolerance_class then
    (if s = Status.pass then Status.warning else s)
  else s

/-- Embeds `_to_float(master_dim.get("nominal")) or _to_float(master_dim.get("value"))`
— the `master_nominal` field of the comparison item (Python `or`: a `None`
or `0.0` first operand falls through to the second). -/
def buildNominal (m : CompDim) : Option ℚ :=
  match m.nominal with
  | some q => if q ≠ 0 then some q else m.value
  | none => m.value

/-- The Phase-2.5 value-comparison overlay of `run_comparator`: when both
`master_nominal` and `check_actual` are present and the comparison reports
an issue, the item status becomes the comparison status if that is `fail`
or if the current status is `pass`. -/
def valueOverlay (s : Status) (m c : CompDim) : Status :=
  match buildNominal m, c.value with
  | some mn, some ca =>
      match compareDimensionValues (some mn) (some ca) with
      | (vs, some _) => if vs = Status.fail ∨ s = Status.pass then vs else s
      | (_, none) => s
  | _, _ => s

/-- The check-tolerance reconstruction of Phase 2.5: when the comparison
item carries check coordinates, scan `check_dims` for the first dimension
whose (truthy) coordinate dict equals them and take its tolerances;
otherwise both tolerances are `None`. -/
def reconstructTols (checkCoords : Option (ℚ × ℚ)) (checkDims : List CompDim) :
    Option ℚ × Option ℚ :=
  match checkCoords with
  | none => (none, none)
  | some cc =>
      match checkDims.find? (fun d => d.coordinates = some cc) with
      | some d => (d.upper_tol, d.lower_tol)
      | none => (none, none)

/-- The full Phase-2.5 status evolution of `run_comparator` for one matched
pair `(m, c)` drawn from `checkDims`: build status, value overlay, then the
tolerance overlay, whose status replaces the item's only when the item is
still `pass` (the `tolerance_issue` itself is recorded unconditionally). -/
def phase25Status (m c : CompDim) (checkDims : List CompDim) :
    Status × Option (Status × Issue) :=
  let s1 := valueOverlay (buildStatus m c) m c
  let recon := reconstructTols c.coordinates checkDims
  match compareTolerances m.upper_tol m.lower_tol recon.1 recon.2 with
  | some (ts, iss) => ((if s1 = Status.pass then ts else s1), some (ts, iss))
  | none => (s1, none)

/-- Master dimension of the C7 counterexample: nominal 100, tolerance
`+1/−1`. -/
def mTol : CompDim := { nominal := some 100, upper_tol := some 1, lower_tol := some (-1) }

/-- Check dimension of the C7 counterexample: actual 101.1, no tolerance. -/
def cTol : CompDim := { value := some (1011/10) }

end Comparator

namespace Py

/-- Digit characters folded most-significant-first into a natural. -/
def digitsToNat (l : List Char) : ℕ :=
  l.foldl (fun a c => 10 * a + (c.toNat - 48)) 0

/-- Little-endian decimal digits of `n` as characters, with explicit fuel
(`n` itself suffices since `n / 10 < n` for `n ≠ 0`). -/
def toCharsAux : ℕ → ℕ → List Char
  | 0, _ => []
  | _, 0 => []
  | fuel + 1, n => Char.ofNat (48 + n % 10) :: toCharsAux fuel (n / 10)

/-- The decimal digit string of `n`, most significant first (empty for 0). -/
def natToChars (n : ℕ) : List Char := (toCharsAux n n).reverse

end Py

namespace Ingestor

/-- Map each character together with its original neighbours — the shape of
one `re.sub` pass whose pattern consumes exactly one character and whose
lookarounds inspect the unmodified input of that pass. -/
def mapNbAux (f : Option Char → Char → Option Char → Char) :
    Option Char → List Char → List Char
  | _, [] => []
  | prev, c :: rest => f prev c rest.head? :: mapNbAux f (some c) rest

/-- One `re.sub(pattern, repl, s)` pass where the pattern matches the single
character `t` under a zero-width condition on the previous and next
character (`none` at the ends of the string). -/
def subPass (t r : Char) (cond : Option Char → Option Char → Bool)
    (l : List Char) : List Char :=
  mapNbAux (fun p c n => if c = t ∧ cond p n then r else c) none l

/-- Embeds `\b…\b` around a word character: both neighbours absent or non-word. -/
def condWordBoundary (p n : Option Char) : Bool :=
  (p.all fun c => !OcrPreprocess.isWordChar c) && (n.all fun c => !OcrPreprocess.isWordChar c)

/-- Embeds `…(?=\.)`. -/
def condBeforeDot (_ n : Option Char) : Bool := n = some '.'

/-- Embeds `(?<=\d)…(?=\d)`. -/
def condBetweenDigits (p n : Option Char) : Bool :=
  (p.any Char.isDigit) && (n.any Char.isDigit)

/-- Embeds `^…(?=\d)`. -/
def condStartBeforeDigit (p n : Option Char) : Bool :=
  p = none && (n.any Char.isDigit)

/-- Embeds `(?<=\d)…$`. -/
def condDigitEnd (p n : Option Char) : Bool :=
  (p.any Char.isDigit) && n = none

/-- Embeds `(?<=\.)…(?=\d)`. -/
def condAfterDotBeforeDigit (p n : Option Char) : Bool :=
  p = some '.' && (n.any Char.isDigit)

/-- Embeds `(?<=\.)…$`. -/
def condAfterDotEnd (p n : Option Char) : Bool :=
  p = some '.' && n = none

/-- Embeds `(?<=\.)…`. -/
def condAfterDot (p _ : Option Char) : Bool := p = some '.'

/-- Embeds `(?<=\d)…(?=[\d.])`. -/
def condDigitThenDigitOrDot (p n : Option Char) : Bool :=
  (p.any Char.isDigit) && (n.any fun c => c.isDigit || c = '.')

/-- The ordered letter-to-digit replacement table of
`_normalize_dimension_value` (`src/backend/app/agents/ingestor.py`),
applied as successive `re.sub` passes. -/
def applyReplacements (l0 : List Char) : List Char :=
  let l := subPass 'O' '0' condWordBoundary l0
  let l := subPass 'o' '0' condWordBoundary l
  let l := subPass 'O' '0' condBeforeDot l
  let l := subPass 'O' '0' condBetweenDigits l
  let l := subPass 'O' '0' condStartBeforeDigit l
  let l := subPass 'O' '0' condDigitEnd l
  let l := subPass 'O' '0' condAfterDotBeforeDigit l
  let l := subPass 'O' '0' condAfterDotEnd l
  let l := subPass 'l' '1' condWordBoundary l
  let l := subPass 'I' '1' condWordBoundary l
  let l := subPass 'l' '1' condBeforeDot l
  let l := subPass 'I' '1' condBeforeDot l
  let l := subPass 'l' '1' condStartBeforeDigit l
  let l := subPass 'I' '1' condStartBeforeDigit l
  let l := subPass 'l' '1' condAfterDot l
  let l := subPass 'I' '1' condAfterDot l
  let l := subPass 'b' '6' condDigitThenDigitOrDot l
  let l := subPass 'b' '6' condDigitEnd l
  let l := subPass 'B' '8' condDigitThenDigitOrDot l
  let l := subPass 'S' '5' condDigitThenDigitOrDot l
  subPass 'Z' '2' condDigitThenDigitOrDot l

/-- Embeds `re.match(r'^(\d+)\s+(\d{1,3})$', s)` and the `"4 79" → "4.79"`
space-as-decimal fix. -/
def spaceFix (l : List Char) : List Char :=
  let d1 := l.takeWhile Char.isDigit
  let rest := l.dropWhile Char.isDigit
  let sp := rest.takeWhile Py.isSpaceChar
  let d2 := rest.dropWhile Py.isSpaceChar
  if d1 ≠ [] ∧ sp ≠ [] ∧ d2 ≠ [] ∧ d2.length ≤ 3 ∧ d2.all Char.isDigit then
    d1 ++ '.' :: d2
  else l

/-- The characters `re.sub(r'[^\d.]', '', s)` keeps. -/
def plainChar (c : Char) : Bool := c.isDigit || c = '.'

/-- Embeds `re.sub(r'[^\d.]', '', s)`. -/
def keepNumeric (l : List Char) : List Char :=
  l.filter plainChar

/-- The multiple-decimal-point repair: keep the first dot, join everything
after it (`parts[0] + '.' + ''.join(parts[1:])`). -/
def fixDots (l : List Char) : List Char :=
  if l.count '.' > 1 then
    l.takeWhile (· ≠ '.') ++ '.' :: ((l.dropWhile (· ≠ '.')).drop 1).filter (· ≠ '.')
  else l

/-- The value of a digits-and-one-dot string as a `(mantissa, decimals)`
pair: `float(s)` returns `mantissa / 10 ^ decimals`. -/
def parsePair (l : List Char) : ℕ × ℕ :=
  let ip := l.takeWhile (· ≠ '.')
  let fp := (l.dropWhile (· ≠ '.')).drop 1
  (Py.digitsToNat ip * 10 ^ fp.length + Py.digitsToNat fp, fp.length)

/-- The rational value of a `(mantissa, decimals)` pair. -/
def pairVal (p : ℕ × ℕ) : ℚ := (p.1 : ℚ) / 10 ^ p.2

/-- Embeds `_normalize_dimension_value` up to the final `float()`: strip, letter
fixes, space-as-decimal, keep digits and dots, dot repair, and the
must-have-a-digit test; the surviving string is digits with at most one
dot, on which `float()` always succeeds with the returned pair's value.
(The out-of-range check only logs.) -/
def normalizeCore (value_str : String) : Option (ℕ × ℕ) :=
  let s := Py.strip value_str
  if s = "" then none
  else
    let l := applyReplacements s.data
    let l := spaceFix l
    let l := keepNumeric l
    let l := fixDots l
    if l.any Char.isDigit then some (parsePair l) else none

/-- Embeds `_normalize_dimension_value(value_str)` for string input. -/
def normalizeDimensionValue (value_str : String) : Option ℚ :=
  (normalizeCore value_str).map pairVal

/-- Strip factors of ten: the canonical `(mantissa, decimals)` pair of a
float value, which is what Python's shortest-round-trip `str()` prints. -/
def canonDec : ℕ → ℕ → ℕ × ℕ
  | m, 0 => (m, 0)
  | m, e + 1 => if m % 10 = 0 then canonDec (m / 10) e else (m, e + 1)

/-- Modelled from Python's `str()` on a non-negative float of value
`m / 10 ^ e` (`repr` prints the shortest round-trip decimal, fixed
notation for exponents in `[-4, 16)` and scientific notation outside,
with a two-digit exponent field). -/
def pyFloatStrPair (m e : ℕ) : String :=
  let p := canonDec m e
  if p.1 = 0 then "0.0"
  else
    let ds := Py.natToChars p.1
    let eexp : ℤ := (ds.length : ℤ) - 1 - (p.2 : ℤ)
    if eexp < -4 ∨ 16 ≤ eexp then
      let mant := match ds with
        | [d] => [d]
        | d :: rest => d :: '.' :: rest
        | [] => []
      let sgn := if eexp < 0 then '-' else '+'
      let ea := eexp.natAbs
      let eds := if ea < 10 then '0' :: Py.natToChars ea else Py.natToChars ea
      ⟨mant ++ 'e' :: sgn :: eds⟩
    else if p.2 = 0 then ⟨ds ++ ['.', '0']⟩
    else if p.2 < ds.length then
      ⟨ds.take (ds.length - p.2) ++ '.' :: ds.drop (ds.length - p.2)⟩
    else ⟨'0' :: '.' :: (List.replicate (p.2 - ds.length) '0' ++ ds)⟩

/-- Embeds `normalize_dimension(normalize_dimension(x))`: the inner result (an
optional float) fed back to the function in its `str()` form; an inner
`None` stays `None` (`if value_str is None: return None`). -/
def renormalize (x : String) : Option ℚ :=
  match normalizeCore x with
  | some (m, e) => normalizeDimensionValue (pyFloatStrPair m e)
  | none => none

end Ingestor

namespace Comparator

/-- The `^(\d+)/(\d+)$` fraction branch of `_to_float`
(`src/backend/app/agents/comparator.py`), as the numerator/denominator
digit values. -/
def fracCore (l : List Char) : Option (ℕ × ℕ) :=
  let a := l.takeWhile Char.isDigit
  match l.dropWhile Char.isDigit with
  | '/' :: rest =>
      if a ≠ [] ∧ rest ≠ [] ∧ rest.all Char.isDigit then
        some (Py.digitsToNat a, Py.digitsToNat rest)
      else none
  | _ => none

/-- The `^(\d+)\s+(\d+)/(\d+)$` mixed-fraction branch of `_to_float`. -/
def mixedCore (l : List Char) : Option (ℕ × ℕ × ℕ) :=
  let a := l.takeWhile Char.isDigit
  let r1 := l.dropWhile Char.isDigit
  let sp := r1.takeWhile Py.isSpaceChar
  let r2 := r1.dropWhile Py.isSpaceChar
  let b := r2.takeWhile Char.isDigit
  match r2.dropWhile Char.isDigit with
  | '/' :: rest =>
      if a ≠ [] ∧ sp ≠ [] ∧ b ≠ [] ∧ rest ≠ [] ∧ rest.all Char.isDigit then
        some (Py.digitsToNat a, Py.digitsToNat b, Py.digitsToNat rest)
      else none
  | _ => none

/-- The cleaned-string fallback of `_to_float`: take the first whitespace
token of `val` (the whole string when `val.split()` is empty), strip it to
`[\d.\-+]` via `re.sub`, and parse with `float()` — which accepts an
optional leading sign followed by digits with at most one dot.  Returns
the sign and the `(mantissa, decimals)` pair. -/
def cleanedCore (val : String) : Option (Bool × (ℕ × ℕ)) :=
  let tok := if val.data.dropWhile Py.isSpaceChar = [] then val.data
    else (val.data.dropWhile Py.isSpaceChar).takeWhile (fun c => !Py.isSpaceChar c)
  let cleaned := tok.filter (fun c => c.isDigit || c = '.' || c = '-' || c = '+')
  if cleaned = [] then none
  else
    match cleaned with
    | '+' :: r =>
        if r.any Char.isDigit ∧ r.all Ingestor.plainChar ∧ r.count '.' ≤ 1 then
          some (false, Ingestor.parsePair r)
        else none
    | '-' :: r =>
        if r.any Char.isDigit ∧ r.all Ingestor.plainChar ∧ r.count '.' ≤ 1 then
          some (true, Ingestor.parsePair r)
        else none
    | r =>
        if r.any Char.isDigit ∧ r.all Ingestor.plainChar ∧ r.count '.' ≤ 1 then
          some (false, Ingestor.parsePair r)
        else none

/-- Embeds `_to_float` on a string input: fraction, mixed fraction, then the
cleaned `float()` fallback.  (A fraction with denominator 0 raises
`ZeroDivisionError` in Python; no claim exercises that input.) -/
def toFloatStr (val : String) : Option ℚ :=
  match fracCore (Py.strip val).data with
  | some (a, b) => some ((a : ℚ) / b)
  | none =>
      match mixedCore (Py.strip val).data with
      | some (a, b, c) => some ((a : ℚ) + (b : ℚ) / c)
      | none =>
          match cleanedCore val with
          | some (neg, p) => some ((if neg then (-1 : ℚ) else 1) * Ingestor.pairVal p)
          | none => none

end Comparator

namespace Ingestor

/-- The printer's scientific-notation condition: the canonical decimal of
the value has its leading digit below the 1e-4 place or at or above the
1e16 place (Python `repr` then switches to `d.dde±EE`). -/
def sciExp (m e : ℕ) : Prop :=
  (canonDec m e).1 ≠ 0 ∧
    (((Py.natToChars (canonDec m e).1).length : ℤ) - 1 - ((canonDec m e).2 : ℤ) < -4 ∨
      16 ≤ ((Py.natToChars (canonDec m e).1).length : ℤ) - 1 - ((canonDec m e).2 : ℤ))

instance (m e : ℕ) : Decidable (sciExp m e) := by
  unfold sciExp; infer_instance

end Ingestor

namespace Comparator

theorem featurePoints_nonneg (m c : CompDim) : 0 ≤ featurePoints m c := by
  unfold featurePoints; split_ifs <;> norm_num

theorem zonePoints_nonneg (m c : CompDim) : 0 ≤ zonePoints m c := by
  unfold zonePoints; split_ifs <;> norm_num

theorem itemPoints_nonneg (m c : CompDim) : 0 ≤ itemPoints m c := by
  unfold itemPoints; split_ifs <;> norm_num

theorem valuePoints_nonneg (m c : CompDim) : 0 ≤ valuePoints m c := by
  unfold valuePoints; split_ifs <;> norm_num

theorem coordPoints_nonneg (m c : CompDim) : 0 ≤ coordPoints m c := by
  unfold coordPoints; split_ifs <;> norm_num

theorem tolClassPoints_nonneg (m c : CompDim) : 0 ≤ tolClassPoints m c := by
  unfold tolClassPoints; split_ifs <;> norm_num

theorem unitPoints_nonneg (m c : CompDim) : 0 ≤ unitPoints m c := by
  unfold unitPoints; split_ifs <;> norm_num

theorem matchScore_nonneg (m c : CompDim) : 0 ≤ matchScore m c := by
  have hb : 0 ≤ baseScore m c := by
    unfold baseScore
    have h1 := featurePoints_nonneg m c
    have h2 := zonePoints_nonneg m c
    have h3 := itemPoints_nonneg m c
    have h4 := valuePoints_nonneg m c
    have h5 := coordPoints_nonneg m c
    have h6 := tolClassPoints_nonneg m c
    have h7 := unitPoints_nonneg m c
    linarith
  unfold matchScore
  split_ifs <;> simp_all <;> linarith [le_max_left (0:ℤ) (baseScore m c - 2)]

theorem bestLoop_mono (m : CompDim) (used : List ℕ) (cs : List CompDim)
    (i₀ : ℕ) (acc : Option ℕ × ℤ) :
    acc.2 ≤ (bestLoop m used cs i₀ acc).2 := by
  induction cs generalizing i₀ acc with
  | nil => simp [bestLoop]
  | cons c rest ih =>
      simp only [bestLoop]
      refine le_trans ?_ (ih (i₀ + 1) _)
      split_ifs <;> simp <;> linarith

theorem bestLoop_ubound (m : CompDim) (used : List ℕ) (cs : List CompDim)
    (i₀ : ℕ) (acc : Option ℕ × ℤ) :
    ∀ j, j < cs.length → (i₀ + j) ∉ used →
      matchScore m (cs.getD j default) ≤ (bestLoop m used cs i₀ acc).2 := by
  induction cs generalizing i₀ acc with
  | nil => intro j hj; simp at hj
  | cons c rest ih =>
      intro j hj hused
      match j with
      | 0 =>
          simp only [List.getD_cons_zero]
          simp only [bestLoop]
          refine le_trans ?_ (bestLoop_mono m used rest (i₀ + 1) _)
          rw [if_neg (by simpa using hused)]
          split_ifs with h
          · simp
          · simpa using le_of_not_lt h
      | j + 1 =>
          simp only [bestLoop]
          have := ih (i₀ + 1) (if i₀ ∈ used then acc
            else if matchScore m c > acc.2 then (some i₀, matchScore m c) else acc) j
            (by simpa using hj) (by convert hused using 2; omega)
          simpa using this

theorem bestLoop_cases (m : CompDim) (used : List ℕ) (cs : List CompDim)
    (i₀ : ℕ) (acc : Option ℕ × ℤ) :
    bestLoop m used cs i₀ acc = acc ∨
      ∃ j, j < cs.length ∧ (i₀ + j) ∉ used ∧
        (bestLoop m used cs i₀ acc).1 = some (i₀ + j) ∧
        (bestLoop m used cs i₀ acc).2 = matchScore m (cs.getD j default) ∧
        acc.2 < (bestLoop m used cs i₀ acc).2 ∧
        ∀ j', j' < j → (i₀ + j') ∉ used →
          matchScore m (cs.getD j' default) < (bestLoop m used cs i₀ acc).2 := by
  induction cs generalizing i₀ acc with
  | nil => left; simp [bestLoop]
  | cons c rest ih =>
      by_cases hu : i₀ ∈ used
      · have hred : bestLoop m used (c :: rest) i₀ acc =
            bestLoop m used rest (i₀ + 1) acc := by
          simp [bestLoop, hu]
        rcases ih (i₀ + 1) acc with h | ⟨j, hj, hju, h1, h2, h3, h4⟩
        · left; rw [hred, h]
        · right
          refine ⟨j + 1, by simpa using Nat.succ_lt_succ hj, ?_, ?_, ?_, ?_, ?_⟩
          · convert hju using 2; omega
          · rw [hred]; convert h1 using 2; omega
          · rw [hred]; simpa using h2
          · rw [hred]; exact h3
          · intro j' hj' hju'
            match j' with
            | 0 => exact absurd (by simpa using hju') (by simpa using hu)
            | j' + 1 =>
                rw [hred]
                have := h4 j' (by omega) (by convert hju' using 2; omega)
                simpa using this
      · by_cases hgt : matchScore m c > acc.2
        · have hred : bestLoop m used (c :: rest) i₀ acc =
              bestLoop m used rest (i₀ + 1) (some i₀, matchScore m c) := by
            simp [bestLoop, hu, hgt]
          rcases ih (i₀ + 1) (some i₀, matchScore m c) with h | ⟨j, hj, hju, h1, h2, h3, h4⟩
          · right
            refine ⟨0, by simp, by simpa using hu, ?_, ?_, ?_, ?_⟩
            · rw [hred, h]; simp
            · rw [hred, h]; simp
            · rw [hred, h]; simpa using hgt
            · intro j' hj' _; exact absurd hj' (Nat.not_lt_zero _)
          · right
            refine ⟨j + 1, by simpa using Nat.succ_lt_succ hj, ?_, ?_, ?_, ?_, ?_⟩
            · convert hju using 2; omega
            · rw [hred]; convert h1 using 2; omega
            · rw [hred]; simpa using h2
            · rw [hred]
              calc acc.2 < matchScore m c := hgt
                _ < (bestLoop m used rest (i₀ + 1) (some i₀, matchScore m c)).2 := by
                    simpa using h3
            · intro j' hj' hju'
              match j' with
              | 0 =>
                  rw [hred]
                  simp only [List.getD, List.get?, Option.getD]
                  calc matchScore m c = (some i₀, matchScore m c).2 := rfl
                    _ < _ := h3
                  -- strictness from h3
              | j' + 1 =>
                  rw [hred]
                  have := h4 j' (by omega) (by convert hju' using 2; omega)
                  simpa using this
        · have hred : bestLoop m used (c :: rest) i₀ acc =
              bestLoop m used rest (i₀ + 1) acc := by
            simp [bestLoop, hu, hgt]
          rcases ih (i₀ + 1) acc with h | ⟨j, hj, hju, h1, h2, h3, h4⟩
          · left; rw [hred, h]
          · right
            refine ⟨j + 1, by simpa using Nat.succ_lt_succ hj, ?_, ?_, ?_, ?_, ?_⟩
            · convert hju using 2; omega
            · rw [hred]; convert h1 using 2; omega
            · rw [hred]; simpa using h2
            · rw [hred]; exact h3
            · intro j' hj' hju'
              match j' with
              | 0 =>
                  rw [hred]
                  simp only [List.getD, List.get?, Option.getD]
                  have hle : matchScore m c ≤ acc.2 := le_of_not_lt hgt
                  calc matchScore m c ≤ acc.2 := hle
                    _ < _ := h3
              | j' + 1 =>
                  rw [hred]
                  have := h4 j' (by omega) (by convert hju' using 2; omega)
                  simpa using this

end Comparator

/-- C1: the per-pair tolerance evaluation computes `deviation = actual −
nominal` and classifies exactly as the spec's table: `pending` when the
nominal is 0; with no tolerance, `pass` below 0.001 absolute or 1% relative
deviation, `warning` below 5%, else `deviation`; with a tolerance, `pass`
inside the band, else `warning` within 1.2× the band, else `deviation`
above 10% relative change, else `fail`. -/
theorem C1_evaluate_tolerance_matches_spec (m c : Comparator.CompDim) :
    Comparator.evaluateTolerance m c =
      Comparator.specToleranceTable (Comparator.extractNominal m)
        (Comparator.extractTol m.upper_tol) (Comparator.extractTol m.lower_tol)
        (c.value.getD 0) := by
  unfold Comparator.evaluateTolerance Comparator.specToleranceTable Comparator.pctChange
  by_cases h0 : Comparator.extractNominal m = 0
  · rw [if_pos h0, if_pos h0]
  · rw [if_neg h0, if_neg h0]
    by_cases htol : Comparator.extractTol m.upper_tol = 0 ∧ Comparator.extractTol m.lower_tol = 0
    · rw [if_pos htol, if_pos htol]
      by_cases habs : |c.value.getD 0 - Comparator.extractNominal m| < 1/1000
      · rw [if_pos habs, if_pos (Or.inl habs)]
      · rw [if_neg habs]
        by_cases hpct : |c.value.getD 0 - Comparator.extractNominal m| /
            |Comparator.extractNominal m| < 1/100
        · rw [if_pos hpct, if_pos (Or.inr hpct)]
        · have hor : ¬(|c.value.getD 0 - Comparator.extractNominal m| < 1/1000 ∨
              |c.value.getD 0 - Comparator.extractNominal m| /
                |Comparator.extractNominal m| < 1/100) := fun h => h.elim habs hpct
          rw [if_neg hpct, if_neg hor]
    · rw [if_neg htol, if_neg htol]
      by_cases hband : Comparator.extractTol m.lower_tol ≤
          c.value.getD 0 - Comparator.extractNominal m ∧
          c.value.getD 0 - Comparator.extractNominal m ≤ Comparator.extractTol m.upper_tol
      · rw [if_pos hband, if_pos hband]
      · rw [if_neg hband, if_neg hband]
        have hpos : max |Comparator.extractTol m.upper_tol| |Comparator.extractTol m.lower_tol| > 0 := by
          rcases not_and_or.mp htol with h | h
          · exact lt_max_of_lt_left (abs_pos.mpr h)
          · exact lt_max_of_lt_right (abs_pos.mpr h)
        by_cases hwide : |c.value.getD 0 - Comparator.extractNominal m| ≤
            max |Comparator.extractTol m.upper_tol| |Comparator.extractTol m.lower_tol| * (12/10)
        · have hw1 : |c.value.getD 0 - Comparator.extractNominal m| ≤
              (12/10) * max |Comparator.extractTol m.upper_tol| |Comparator.extractTol m.lower_tol| := by
            rw [mul_comm]; exact hwide
          rw [if_pos ⟨hpos, hwide⟩, if_pos hw1]
        · have hw2 : ¬(|c.value.getD 0 - Comparator.extractNominal m| ≤
              (12/10) * max |Comparator.extractTol m.upper_tol| |Comparator.extractTol m.lower_tol|) := by
            rw [mul_comm]; exact hwide
          rw [if_neg (fun h => hwide h.2), if_neg hw2]

/-- C2: `_find_best_match` returns the first-scanned unused check dimension
of maximal score and accepts it only when that score is at least 2;
otherwise (all unused scores below 2) it returns no match.  `matchScore`
is the sum of the feature/zone/item/value/coordinate/tolerance-class/unit
points with the two `max(0, score−2)` penalties. -/
theorem C2_find_best_match_spec (m : Comparator.CompDim)
    (checks : List Comparator.CompDim) (used : List ℕ) :
    (∀ i c, Comparator.findBestMatch m checks used = some (i, c) →
        i < checks.length ∧ checks.getD i default = c ∧ i ∉ used ∧
        2 ≤ Comparator.matchScore m c ∧
        (∀ j, j < checks.length → j ∉ used →
          Comparator.matchScore m (checks.getD j default) ≤ Comparator.matchScore m c) ∧
        (∀ j, j < i → j ∉ used →
          Comparator.matchScore m (checks.getD j default) < Comparator.matchScore m c)) ∧
    (Comparator.findBestMatch m checks used = none →
        ∀ j, j < checks.length → j ∉ used →
          Comparator.matchScore m (checks.getD j default) < 2) := by
  have hub := Comparator.bestLoop_ubound m used checks 0 (none, -1)
  rcases Comparator.bestLoop_cases m used checks 0 (none, -1) with
    hacc | ⟨j, hj, hju, h1, h2, h3, h4⟩
  · constructor
    · intro i c hfind
      unfold Comparator.findBestMatch at hfind
      rw [hacc] at hfind
      simp at hfind
    · intro _ j' hj' hju'
      have := hub j' hj' (by simpa using hju')
      rw [hacc] at this
      exact lt_of_le_of_lt this (by norm_num)
  · have hB : Comparator.bestLoop m used checks 0 (none, -1) =
        (some (0 + j), Comparator.matchScore m (checks.getD j default)) := by
      rw [← h1, ← h2]
    constructor
    · intro i c hfind
      unfold Comparator.findBestMatch at hfind
      simp only [hB] at hfind
      by_cases hs : Comparator.matchScore m (checks.getD j default) ≥ 2
      · rw [if_pos hs] at hfind
        have hi : i = 0 + j ∧ checks.getD (0 + j) default = c := by
          cases hfind; exact ⟨rfl, rfl⟩
        rcases hi with ⟨hi, hc⟩
        subst hi
        simp only [Nat.zero_add] at hc ⊢
        refine ⟨hj, hc, by simpa using hju, by rw [← hc]; exact hs, ?_, ?_⟩
        · intro j' hj' hju'
          have := hub j' hj' (by simpa using hju')
          rw [hB] at this
          simpa [← hc] using this
        · intro j' hj' hju'
          have := h4 j' hj' (by simpa using hju')
          rw [hB] at this
          simpa [← hc] using this
      · rw [if_neg hs] at hfind
        exact absurd hfind (by simp)
    · intro hfind j' hj' hju'
      unfold Comparator.findBestMatch at hfind
      simp only [hB] at hfind
      by_cases hs : Comparator.matchScore m (checks.getD j default) ≥ 2
      · rw [if_pos hs] at hfind
        exact absurd hfind (by simp)
      · have := hub j' hj' (by simpa using hju')
        rw [hB] at this
        exact lt_of_le_of_lt this (by omega)

/-- Witness for C2: on a one-element check list with matching feature
types the matcher returns the match, and the spec theorem yields that its
score is at least 2. -/
theorem C2_find_best_match_spec_witness :
    Comparator.findBestMatch Comparator.mEx [Comparator.cEx] [] =
      some (0, Comparator.cEx) ∧ 2 ≤ Comparator.matchScore Comparator.mEx Comparator.cEx := by
  have hfind : Comparator.findBestMatch Comparator.mEx [Comparator.cEx] [] =
      some (0, Comparator.cEx) := by decide
  exact ⟨hfind,
    ((C2_find_best_match_spec Comparator.mEx [Comparator.cEx] []).1 0 Comparator.cEx
      hfind).2.2.2.1⟩

namespace ReviewAgent

theorem dedup_key_not_seen (key : Finding → String × String)
    (l : List Finding) (seen : List (String × String)) :
    ∀ x ∈ dedup key l seen, key x ∉ seen := by
  induction l generalizing seen with
  | nil => intro x hx; simp [dedup] at hx
  | cons a l ih =>
      intro x hx
      by_cases ha : key a ∈ seen
      · rw [dedup, if_pos ha] at hx
        exact ih seen x hx
      · rw [dedup, if_neg ha] at hx
        rcases List.mem_cons.mp hx with rfl | hx
        · exact ha
        · have := ih (key a :: seen) x hx
          exact fun hs => this (List.mem_cons_of_mem _ hs)

theorem dedup_pairwise (key : Finding → String × String)
    (l : List Finding) (seen : List (String × String)) :
    (dedup key l seen).Pairwise (fun a b => key a ≠ key b) := by
  induction l generalizing seen with
  | nil => simp [dedup]
  | cons a l ih =>
      by_cases ha : key a ∈ seen
      · rw [dedup, if_pos ha]; exact ih seen
      · rw [dedup, if_neg ha]
        refine List.Pairwise.cons ?_ (ih _)
        intro y hy
        have := dedup_key_not_seen key l (key a :: seen) y hy
        exact fun h => this (h ▸ List.mem_cons_self _ _)

end ReviewAgent

/-- C3: after the server-side dedup in `run_review`, no two findings in
`missing_dimensions` share a case-folded `(value, location)` key, no two in
`missing_tolerances` share one, no two in `modified_values` share a
case-folded `(master_value, location)` key, and no `(master_value,
location)` key of `modified_values` also occurs as a `(value, location)`
key of `missing_dimensions`. -/
theorem C3_review_dedup_law (r : ReviewAgent.ReviewResult) :
    (ReviewAgent.dedupReview r).missing_dimensions.Pairwise
      (fun a b => ReviewAgent.keyVL a ≠ ReviewAgent.keyVL b) ∧
    (ReviewAgent.dedupReview r).missing_tolerances.Pairwise
      (fun a b => ReviewAgent.keyVL a ≠ ReviewAgent.keyVL b) ∧
    (ReviewAgent.dedupReview r).modified_values.Pairwise
      (fun a b => ReviewAgent.keyMV a ≠ ReviewAgent.keyMV b) ∧
    ∀ md ∈ (ReviewAgent.dedupReview r).missing_dimensions,
      ∀ mv ∈ (ReviewAgent.dedupReview r).modified_values,
        ReviewAgent.keyVL md ≠ ReviewAgent.keyMV mv := by
  refine ⟨?_, ?_, ?_, ?_⟩
  · exact List.Pairwise.sublist (List.filter_sublist _)
      (ReviewAgent.dedup_pairwise _ _ [])
  · exact ReviewAgent.dedup_pairwise _ _ []
  · exact ReviewAgent.dedup_pairwise _ _ []
  · intro md hmd mv hmv
    have hmem := List.of_mem_filter hmd
    have hkeys : ReviewAgent.keyVL md ∉
        (ReviewAgent.dedup ReviewAgent.keyMV r.modified_values []).map ReviewAgent.keyMV := by
      intro hk
      have hcon : ((ReviewAgent.dedup ReviewAgent.keyMV r.modified_values []).map
          ReviewAgent.keyMV).contains (ReviewAgent.keyVL md) = true :=
        List.contains_iff_exists_mem_beq.mpr ⟨ReviewAgent.keyVL md, hk, by simp⟩
      simp [hcon] at hmem
      rcases List.mem_map.mp hk with ⟨x, hx, hxe⟩
      exact hmem x hx hxe
    intro heq
    exact hkeys (heq ▸ List.mem_map_of_mem ReviewAgent.keyMV hmv)

/-- Witness for C3: on a concrete review result the cross-category clause
yields that the surviving missing dimension's key differs from the modified
value's key. -/
theorem C3_review_dedup_law_witness :
    ReviewAgent.keyVL { value := "10", location := "A" } ≠
      ReviewAgent.keyMV { master_value := "12", location := "B" } :=
  (C3_review_dedup_law rEx).2.2.2
    { value := "10", location := "A" } (by decide)
    { master_value := "12", location := "B" } (by decide)

/-- Counterexample to C4: an exception in round 1 (the Claude initial
review, whose body contains no `try`) propagates out of `run_review`, so
the entry point does not trap provider failures in every round. -/
theorem C4_counterexample :
    ReviewAgent.runReview (.error ()) (.ok none) (.ok none) = .error () := rfl

/-- C4 (amended): parse failures never propagate — when rounds 1 and 3
return (exceptions only escape through those two rounds), `run_review`
always produces a result; a round-2 (Gemini) provider failure is trapped;
and when every round fails to yield parseable JSON the result has all
three lists empty and the diagnostic summary.  Exceptions raised by
rounds 1 and 3 propagate unchanged. -/
theorem C4_review_failure_handling
    (r2 : Except Unit (Option ReviewAgent.ReviewResult))
    (claude finalp : Option ReviewAgent.ReviewResult) :
    (∃ res, ReviewAgent.runReview (.ok claude) r2 (.ok finalp) = .ok res) ∧
    (claude = none → finalp = none → (r2 = .error () ∨ r2 = .ok none) →
      ReviewAgent.runReview (.ok claude) r2 (.ok finalp) =
        .ok { missing_dimensions := [], missing_tolerances := [],
              modified_values := [],
              summary := some "Error: Could not parse review results" }) ∧
    (∀ r2' r3', ReviewAgent.runReview (.error ()) r2' r3' = .error ()) ∧
    (∀ p1 r2', ReviewAgent.runReview (.ok p1) r2' (.error ()) = .error ()) := by
  refine ⟨⟨_, rfl⟩, ?_, fun _ _ => rfl, fun _ _ => rfl⟩
  rintro rfl rfl (rfl | rfl) <;> rfl

/-- Witness for C4 (amended): with all three parses failed the result is
the empty review with the diagnostic summary. -/
theorem C4_review_failure_handling_witness :
    ReviewAgent.runReview (.ok none) (.ok none) (.ok none) =
      .ok { missing_dimensions := [], missing_tolerances := [],
            modified_values := [],
            summary := some "Error: Could not parse review results" } :=
  (C4_review_failure_handling (.ok none) none none).2.1 rfl rfl (Or.inr rfl)

namespace Py

theorem pyInt_of_nonneg (q : ℚ) (h : 0 ≤ q) : pyInt q = ⌊q⌋ :=
  if_neg (not_lt.mpr h)

end Py

/-- Counterexample to C8: a region at `x = 100%` on a 1000×1000 image is
scaled to a pixel rect of width 0 — the `w ≥ 10` part of the claimed
invariant fails. -/
theorem C8_counterexample :
    ReviewAgent.scaleRegion
        (some { x := some 100, y := some 0, width := some 8, height := some 5 })
        1000 1000 = some (1000, 0, 0, 50) ∧ ¬(10 ≤ (0:ℤ)) := by
  constructor
  · norm_num [ReviewAgent.scaleRegion, ReviewAgent.clampedStart,
      ReviewAgent.clampedLen, ReviewAgent.fitLen, Py.pyInt]
  · decide

/-- C8 (amended): for a percentage rect with all four fields in `[0, 100]`
and a positive image, the scaled rect satisfies `0 ≤ x`, `0 ≤ y`,
`x + w ≤ width`, `y + h ≤ height`; the `w ≥ 10` (resp. `h ≥ 10`) guarantee
holds exactly when the box start leaves room for it, i.e. when
`x ≤ width − 10` (resp. `y ≤ height − 10`) — near the right or bottom edge
the shrink-to-fit step can cut the 10-pixel minimum down, to 0 in the
extreme. -/
theorem C8_scale_region_bounds (r : ReviewAgent.Rect) (W H : ℤ)
    (hx1 : 0 ≤ r.x.getD 0) (hx2 : r.x.getD 0 ≤ 100)
    (hy1 : 0 ≤ r.y.getD 0) (hy2 : r.y.getD 0 ≤ 100)
    (hw1 : 0 ≤ r.width.getD 8) (hw2 : r.width.getD 8 ≤ 100)
    (hh1 : 0 ≤ r.height.getD 5) (hh2 : r.height.getD 5 ≤ 100)
    (hW : 1 ≤ W) (hH : 1 ≤ H) :
    ∀ x y w h, ReviewAgent.scaleRegion (some r) W H = some (x, y, w, h) →
      0 ≤ x ∧ 0 ≤ y ∧ x + w ≤ W ∧ y + h ≤ H ∧
      (x ≤ W - 10 → 10 ≤ w) ∧ (y ≤ H - 10 → 10 ≤ h) := by
  intro x y w h heq
  have hx : x = ReviewAgent.clampedStart (r.x.getD 0) W := by
    cases heq; rfl
  have hy : y = ReviewAgent.clampedStart (r.y.getD 0) H := by
    cases heq; rfl
  have hw : w = ReviewAgent.fitLen x (ReviewAgent.clampedLen (r.width.getD 8) W) W := by
    cases heq; rfl
  have hh : h = ReviewAgent.fitLen y (ReviewAgent.clampedLen (r.height.getD 5) H) H := by
    cases heq; rfl
  have hx0 : 0 ≤ x := by rw [hx]; exact le_max_left _ _
  have hy0 : 0 ≤ y := by rw [hy]; exact le_max_left _ _
  have hwfit : w = ReviewAgent.fitLen x (ReviewAgent.clampedLen (r.width.getD 8) W) W := hw
  refine ⟨hx0, hy0, ?_, ?_, ?_, ?_⟩
  · rw [hw]; unfold ReviewAgent.fitLen
    split_ifs with hgt
    · omega
    · omega
  · rw [hh]; unfold ReviewAgent.fitLen
    split_ifs with hgt
    · omega
    · omega
  · intro hroom
    have hlen : 10 ≤ ReviewAgent.clampedLen (r.width.getD 8) W := le_max_left _ _
    rw [hw]; unfold ReviewAgent.fitLen
    split_ifs with hgt
    · omega
    · omega
  · intro hroom
    have hlen : 10 ≤ ReviewAgent.clampedLen (r.height.getD 5) H := le_max_left _ _
    rw [hh]; unfold ReviewAgent.fitLen
    split_ifs with hgt
    · omega
    · omega

/-- Witness for C8 (amended): a 10%-offset region on a 1000×1000 image. -/
theorem C8_scale_region_bounds_witness :
    0 ≤ (100:ℤ) ∧ 0 ≤ (100:ℤ) ∧ (100:ℤ) + 80 ≤ 1000 ∧ (100:ℤ) + 50 ≤ 1000 ∧
    ((100:ℤ) ≤ 1000 - 10 → 10 ≤ (80:ℤ)) ∧ ((100:ℤ) ≤ 1000 - 10 → 10 ≤ (50:ℤ)) :=
  C8_scale_region_bounds
    { x := some 10, y := some 10, width := some 8, height := some 5 } 1000 1000
    (by norm_num) (by norm_num) (by norm_num) (by norm_num)
    (by norm_num) (by norm_num) (by norm_num) (by norm_num)
    (by norm_num) (by norm_num) 100 100 80 50
    (by norm_num [ReviewAgent.scaleRegion, ReviewAgent.clampedStart,
      ReviewAgent.clampedLen, ReviewAgent.fitLen, Py.pyInt])

/-- C10: `_scale_coordinates` scales by `/100` against the image size only
when both components lie in `[0, 100]`; a pair with any component outside
that range is kept as pixel values up to integer truncation; results are
always clamped to `[0, width−1] × [0, height−1]`; a missing dict or a
non-numeric component yields `(0, 0)`. -/
theorem C10_scale_coordinates_spec
    (coords : Option (Ingestor.CoordVal × Ingestor.CoordVal))
    (W H : ℤ) (hW : 1 ≤ W) (hH : 1 ≤ H) :
    (0 ≤ (Ingestor.scaleCoordinates coords W H).1 ∧
      (Ingestor.scaleCoordinates coords W H).1 ≤ W - 1 ∧
      0 ≤ (Ingestor.scaleCoordinates coords W H).2 ∧
      (Ingestor.scaleCoordinates coords W H).2 ≤ H - 1) ∧
    (∀ x y, coords = some (.num x, .num y) →
      ((0 ≤ x ∧ x ≤ 100 ∧ 0 ≤ y ∧ y ≤ 100) →
        Ingestor.scaleCoordinates coords W H =
          (max 0 (min (Py.pyInt (x / 100 * W)) (W - 1)),
           max 0 (min (Py.pyInt (y / 100 * H)) (H - 1)))) ∧
      (¬(0 ≤ x ∧ x ≤ 100 ∧ 0 ≤ y ∧ y ≤ 100) →
        Ingestor.scaleCoordinates coords W H =
          (max 0 (min (Py.pyInt x) (W - 1)),
           max 0 (min (Py.pyInt y) (H - 1))))) ∧
    (coords = none → Ingestor.scaleCoordinates coords W H = (0, 0)) ∧
    (∀ cx cy, coords = some (cx, cy) →
      cx = Ingestor.CoordVal.nonNumeric ∨ cy = Ingestor.CoordVal.nonNumeric →
      Ingestor.scaleCoordinates coords W H = (0, 0)) := by
  have hcl : ∀ (v S : ℤ), 1 ≤ S →
      0 ≤ max 0 (min v (S - 1)) ∧ max 0 (min v (S - 1)) ≤ S - 1 := by
    intro v S hS
    exact ⟨le_max_left _ _, max_le (by omega) (min_le_right _ _)⟩
  refine ⟨?_, ?_, ?_, ?_⟩
  · rcases coords with _ | ⟨cx, cy⟩
    · simp only [Ingestor.scaleCoordinates]
      refine ⟨le_refl 0, by omega, le_refl 0, by omega⟩
    · rcases hfx : Ingestor.coordFloat cx with _ | x <;>
        rcases hfy : Ingestor.coordFloat cy with _ | y <;>
        simp only [Ingestor.scaleCoordinates, hfx, hfy]
      · refine ⟨le_refl 0, by omega, le_refl 0, by omega⟩
      · refine ⟨le_refl 0, by omega, le_refl 0, by omega⟩
      · refine ⟨le_refl 0, by omega, le_refl 0, by omega⟩
      · split_ifs
        · exact ⟨(hcl _ W hW).1, (hcl _ W hW).2, (hcl _ H hH).1, (hcl _ H hH).2⟩
        · exact ⟨(hcl _ W hW).1, (hcl _ W hW).2, (hcl _ H hH).1, (hcl _ H hH).2⟩
  · rintro x y rfl
    constructor
    · intro hin
      simp only [Ingestor.scaleCoordinates, Ingestor.coordFloat, if_pos hin]
    · intro hout
      simp only [Ingestor.scaleCoordinates, Ingestor.coordFloat, if_neg hout]
  · rintro rfl; rfl
  · rintro cx cy rfl (rfl | rfl)
    · rfl
    · rcases cx <;> rfl

/-- Witness for C10: a mid-image percentage pair on a 200×200 image takes
the scaled branch. -/
theorem C10_scale_coordinates_spec_witness :
    Ingestor.scaleCoordinates
        (some (.num 50, .num 50)) 200 200 =
      (max 0 (min (Py.pyInt ((50:ℚ) / 100 * (200:ℤ))) (200 - 1)),
       max 0 (min (Py.pyInt ((50:ℚ) / 100 * (200:ℤ))) (200 - 1))) :=
  (((C10_scale_coordinates_spec (some (.num 50, .num 50)) 200 200
      (by norm_num) (by norm_num)).2.1 50 50 rfl).1 (by norm_num))

/-- C6 (code bug): every string matching the tolerance pattern
`^[+-]\d+\.?\d*$` also matches the dimension pattern
`^[+-]?\d+\.?\d*\s*(mm|in|cm|m)?$` checked first, so `_classify_text`
returns `"dimension"` for it — the `"tolerance"` branch is unreachable,
contrary to the comment `# Tolerance like +0.05 / -0.02` above it and the
spec's classification table. -/
theorem C6_tolerance_branch_shadowed (s : String)
    (h : OcrPreprocess.isTolPattern (Py.strip s).data = true) :
    OcrPreprocess.classifyText s = "dimension" := by
  have hdim : OcrPreprocess.isDimPattern (Py.strip s).data = true := by
    rcases hT : (Py.strip s).data with _ | ⟨c, cs⟩ <;> rw [hT] at h
    · simp [OcrPreprocess.isTolPattern] at h
    · simp only [OcrPreprocess.isTolPattern] at h
      by_cases hsign : c = '+' ∨ c = '-'
      · rw [if_pos hsign] at h
        rcases hnum : OcrPreprocess.matchNum cs with _ | rest <;> rw [hnum] at h
        · simp at h
        · have hrest : rest = [] := by
            cases rest with
            | nil => rfl
            | cons a l => simp [List.isEmpty] at h
          subst hrest
          simp only [OcrPreprocess.isDimPattern, OcrPreprocess.dropSign, if_pos hsign, hnum]
          simp [List.dropWhile]
      · rw [if_neg hsign] at h; simp at h
  simp only [OcrPreprocess.classifyText]
  rw [if_pos hdim]

/-- Witness for C6: `"+0.05"` matches the tolerance pattern yet is
classified as a dimension. -/
theorem C6_tolerance_branch_shadowed_witness :
    OcrPreprocess.isTolPattern (Py.strip "+0.05").data = true ∧
      OcrPreprocess.classifyText "+0.05" = "dimension" :=
  ⟨by decide, C6_tolerance_branch_shadowed "+0.05" (by decide)⟩

/-- Counterexample to C7: master has tolerance `+1/−1` around nominal 100
and the matched check value 101.1 carries no tolerance; the evaluation
yields `warning`, the value overlay keeps `warning`, and the
missing-tolerance result does **not** force the status to `fail` because
the item is not `pass` — the final status is `warning`. -/
theorem C7_counterexample :
    Comparator.phase25Status Comparator.mTol Comparator.cTol [Comparator.cTol] =
      (Comparator.Status.warning,
       some (Comparator.Status.fail, Comparator.Issue.missing_tolerance)) ∧
    Comparator.Status.warning ≠ Comparator.Status.fail := by
  have habs : |(100:ℚ) - 1011/10| = 11/10 := by
    rw [abs_sub_comm, abs_of_nonneg] <;> norm_num
  have habs2 : |(1011:ℚ)/10 - 100| = 11/10 := by
    rw [abs_of_nonneg] <;> norm_num
  have habs3 : |(11:ℚ)/10| = 11/10 := abs_of_nonneg (by norm_num)
  have habs4 : |(1011:ℚ)/10| = 1011/10 := abs_of_nonneg (by norm_num)
  have hmin : (100:ℚ) ⊓ (1011/10) = 100 := min_eq_left (by norm_num)
  have hmax : (100:ℚ) ⊔ (1011/10) = 1011/10 := max_eq_right (by norm_num)
  have e1 : Comparator.evaluateTolerance Comparator.mTol Comparator.cTol =
      (Comparator.Status.warning, some (11/10)) := by
    norm_num [Comparator.evaluateTolerance, Comparator.extractNominal,
      Comparator.extractTol, Comparator.pctChange, Comparator.mTol,
      Comparator.cTol, habs2, habs3]
  have hcls : ¬(Py.strip Comparator.mTol.tolerance_class ≠ "" ∧
      Py.strip Comparator.cTol.tolerance_class ≠ "" ∧
      Py.strip Comparator.mTol.tolerance_class ≠ Py.strip Comparator.cTol.tolerance_class) := by
    decide
  have e2 : Comparator.buildStatus Comparator.mTol Comparator.cTol =
      Comparator.Status.warning := by
    simp only [Comparator.buildStatus, e1, if_neg hcls]
  have ecmp : Comparator.compareDimensionValues (some 100) (some (1011/10)) =
      (Comparator.Status.warning, some Comparator.Issue.modified_value) := by
    norm_num [Comparator.compareDimensionValues, habs, habs3, habs4, hmin, hmax]
  have e3 : Comparator.valueOverlay Comparator.Status.warning Comparator.mTol
      Comparator.cTol = Comparator.Status.warning := by
    norm_num [Comparator.valueOverlay, Comparator.buildNominal, Comparator.mTol,
      Comparator.cTol, ecmp]
  constructor
  · simp only [Comparator.phase25Status, e2, e3]
    simp [Comparator.compareTolerances, Comparator.reconstructTols, Comparator.cTol,
      Comparator.mTol]
  · decide

/-- C7 (amended): when the master dimension carries an upper or lower
tolerance and every check dimension sharing the matched dimension's
coordinates (in particular the matched dimension itself) carries none, the
comparison item records the `fail`/`missing_tolerance` tolerance issue
unconditionally, but its status is set to `fail` only when it was `pass`
after the value checks; otherwise the earlier status is kept. -/
theorem C7_missing_tolerance_overlay (m c : Comparator.CompDim)
    (checkDims : List Comparator.CompDim)
    (hm : m.upper_tol ≠ none ∨ m.lower_tol ≠ none)
    (hc : c.upper_tol = none ∧ c.lower_tol = none)
    (hrec : ∀ d ∈ checkDims, d.coordinates = c.coordinates →
      d.upper_tol = none ∧ d.lower_tol = none) :
    (Comparator.phase25Status m c checkDims).2 =
      some (Comparator.Status.fail, Comparator.Issue.missing_tolerance) ∧
    (Comparator.phase25Status m c checkDims).1 =
      (if Comparator.valueOverlay (Comparator.buildStatus m c) m c =
          Comparator.Status.pass then Comparator.Status.fail
       else Comparator.valueOverlay (Comparator.buildStatus m c) m c) := by
  have hfind : Comparator.reconstructTols c.coordinates checkDims = (none, none) := by
    unfold Comparator.reconstructTols
    rcases hco : c.coordinates with _ | cc
    · rfl
    · rcases hf : checkDims.find? (fun d => d.coordinates = some cc) with _ | d
      · simp [hf]
      · have hd := List.find?_some hf
        have hdm := List.mem_of_find?_eq_some hf
        have hdc : d.coordinates = c.coordinates := by
          rw [hco]; exact of_decide_eq_true hd
        have hdt := hrec d hdm hdc
        simp [hf, hdt.1, hdt.2]
  have htol : Comparator.compareTolerances m.upper_tol m.lower_tol none none =
      some (Comparator.Status.fail, Comparator.Issue.missing_tolerance) := by
    unfold Comparator.compareTolerances
    rw [if_pos hm, if_pos ⟨rfl, rfl⟩]
  simp only [Comparator.phase25Status, hfind, htol]
  exact ⟨trivial, trivial⟩

/-- Witness for C7 (amended): the counterexample inputs discharge the
hypotheses and the overlay keeps the `warning` status. -/
theorem C7_missing_tolerance_overlay_witness :
    (Comparator.phase25Status Comparator.mTol Comparator.cTol [Comparator.cTol]).2 =
      some (Comparator.Status.fail, Comparator.Issue.missing_tolerance) ∧
    (Comparator.phase25Status Comparator.mTol Comparator.cTol [Comparator.cTol]).1 =
      (if Comparator.valueOverlay (Comparator.buildStatus Comparator.mTol Comparator.cTol)
          Comparator.mTol Comparator.cTol = Comparator.Status.pass
       then Comparator.Status.fail
       else Comparator.valueOverlay (Comparator.buildStatus Comparator.mTol Comparator.cTol)
          Comparator.mTol Comparator.cTol) :=
  C7_missing_tolerance_overlay Comparator.mTol Comparator.cTol [Comparator.cTol]
    (Or.inl (by decide)) ⟨rfl, rfl⟩
    (by intro d hd _; cases List.mem_singleton.mp hd; exact ⟨rfl, rfl⟩)

/-- Counterexample to C5: `_normalize_dimension_value` does not parse
fraction strings — the `/` is removed by the `[^\d.]` cleanup, so
`"1/2"` normalizes to `12.0`, not `0.5`. -/
theorem C5_counterexample :
    Ingestor.normalizeDimensionValue "1/2" = some 12 ∧ (12 : ℚ) ≠ 1/2 := by
  constructor
  · have h : Ingestor.normalizeCore "1/2" = some (12, 0) := by decide
    simp [Ingestor.normalizeDimensionValue, h, Ingestor.pairVal]
  · norm_num

/-- C5 (amended): the letter-fix and space-as-decimal examples hold
(`"4 79" → 4.79`, `"O.5" → 0.5`, `"l2.5" → 12.5`), but fraction strings
are mangled by the `[^\d.]` cleanup (`"1/2" → 12.0`, `"1 1/2" → 112.0`);
fraction parsing lives in the comparator's `_to_float`, where
`"1/2" → 0.5` and `"1 1/2" → 1.5`. -/
theorem C5_normalize_dimension_examples :
    Ingestor.normalizeDimensionValue "4 79" = some (479/100) ∧
    Ingestor.normalizeDimensionValue "O.5" = some (1/2) ∧
    Ingestor.normalizeDimensionValue "l2.5" = some (25/2) ∧
    Ingestor.normalizeDimensionValue "1/2" = some 12 ∧
    Ingestor.normalizeDimensionValue "1 1/2" = some 112 ∧
    Comparator.toFloatStr "1/2" = some (1/2) ∧
    Comparator.toFloatStr "1 1/2" = some (3/2) := by
  have h1 : Ingestor.normalizeCore "4 79" = some (479, 2) := by decide
  have h2 : Ingestor.normalizeCore "O.5" = some (5, 1) := by decide
  have h3 : Ingestor.normalizeCore "l2.5" = some (125, 1) := by decide
  have h4 : Ingestor.normalizeCore "1/2" = some (12, 0) := by decide
  have h5 : Ingestor.normalizeCore "1 1/2" = some (112, 0) := by decide
  have h6 : Comparator.fracCore (Py.strip "1/2").data = some (1, 2) := by decide
  have h7 : Comparator.fracCore (Py.strip "1 1/2").data = none := by decide
  have h8 : Comparator.mixedCore (Py.strip "1 1/2").data = some (1, 1, 2) := by decide
  refine ⟨?_, ?_, ?_, ?_, ?_, ?_, ?_⟩
  · simp [Ingestor.normalizeDimensionValue, h1, Ingestor.pairVal]; norm_num
  · simp [Ingestor.normalizeDimensionValue, h2, Ingestor.pairVal]; norm_num
  · simp [Ingestor.normalizeDimensionValue, h3, Ingestor.pairVal]; norm_num
  · simp [Ingestor.normalizeDimensionValue, h4, Ingestor.pairVal]
  · simp [Ingestor.normalizeDimensionValue, h5, Ingestor.pairVal]
  · simp [Comparator.toFloatStr, h6]
  · simp [Comparator.toFloatStr, h7, h8]; norm_num

namespace Py

theorem digitsToNat_from (b : List Char) (s : ℕ) :
    b.foldl (fun a c => 10 * a + (c.toNat - 48)) s =
      s * 10 ^ b.length + digitsToNat b := by
  induction b generalizing s with
  | nil => simp [digitsToNat]
  | cons c b ih =>
      simp only [List.foldl_cons, List.length_cons, digitsToNat]
      rw [ih, ih (10 * 0 + (c.toNat - 48))]
      ring

theorem digitsToNat_append (a b : List Char) :
    digitsToNat (a ++ b) = digitsToNat a * 10 ^ b.length + digitsToNat b := by
  unfold digitsToNat
  rw [List.foldl_append, digitsToNat_from]
  rfl

theorem digitsToNat_nil : digitsToNat [] = 0 := rfl

theorem digitsToNat_replicate_zero (k : ℕ) :
    digitsToNat (List.replicate k '0') = 0 := by
  induction k with
  | zero => rfl
  | succ k ih =>
      rw [List.replicate_succ]
      unfold digitsToNat
      rw [List.foldl_cons, digitsToNat_from]
      have h0 : '0'.toNat = 48 := rfl
      rw [h0, ih]
      norm_num

theorem char_ofNat_val (d : ℕ) (h : d < 10) :
    (Char.ofNat (48 + d)).toNat - 48 = d := by
  interval_cases d <;> decide

theorem char_ofNat_isDigit (d : ℕ) (h : d < 10) :
    (Char.ofNat (48 + d)).isDigit = true := by
  interval_cases d <;> decide

theorem toCharsAux_spec (fuel : ℕ) : ∀ n, n ≤ fuel →
    digitsToNat (toCharsAux fuel n).reverse = n ∧
    ∀ c ∈ toCharsAux fuel n, c.isDigit = true := by
  induction fuel with
  | zero =>
      intro n hn
      simp only [Nat.le_zero] at hn
      subst hn
      exact ⟨rfl, by simp [toCharsAux]⟩
  | succ fuel ih =>
      intro n hn
      rcases Nat.eq_zero_or_pos n with rfl | hpos
      · exact ⟨rfl, by simp [toCharsAux]⟩
      · have hred : toCharsAux (fuel + 1) n =
            Char.ofNat (48 + n % 10) :: toCharsAux fuel (n / 10) := by
          match n, hpos with
          | n + 1, _ => rfl
        have hdiv : n / 10 ≤ fuel := by
          have := Nat.div_lt_self hpos (by norm_num : 1 < 10)
          omega
        obtain ⟨ihv, ihd⟩ := ih (n / 10) hdiv
        constructor
        · rw [hred]
          simp only [List.reverse_cons]
          rw [digitsToNat_append, ihv]
          simp only [List.length_cons, List.length_nil]
          have : digitsToNat [Char.ofNat (48 + n % 10)] = n % 10 := by
            unfold digitsToNat
            simp only [List.foldl_cons, List.foldl_nil]
            rw [Nat.mul_zero, Nat.zero_add, char_ofNat_val _ (Nat.mod_lt n (by norm_num))]
          rw [this]
          omega
        · rw [hred]
          intro c hc
          rcases List.mem_cons.mp hc with rfl | hc
          · exact char_ofNat_isDigit _ (Nat.mod_lt n (by norm_num))
          · exact ihd c hc

theorem natToChars_val (n : ℕ) : digitsToNat (natToChars n) = n :=
  (toCharsAux_spec n n le_rfl).1

theorem natToChars_digits (n : ℕ) : ∀ c ∈ natToChars n, c.isDigit = true := by
  intro c hc
  exact (toCharsAux_spec n n le_rfl).2 c (List.mem_reverse.mp hc)

theorem natToChars_ne_nil (n : ℕ) (h : n ≠ 0) : natToChars n ≠ [] := by
  intro he
  apply h
  have hv := natToChars_val n
  rw [he] at hv
  exact hv.symm

end Py

namespace Ingestor

theorem subPass_id (t r : Char) (cond : Option Char → Option Char → Bool)
    (l : List Char) (h : ∀ c ∈ l, c ≠ t) : subPass t r cond l = l := by
  have haux : ∀ (l' : List Char) (prev : Option Char), (∀ c ∈ l', c ≠ t) →
      mapNbAux (fun p c n => if c = t ∧ cond p n then r else c) prev l' = l' := by
    intro l'
    induction l' with
    | nil => intro prev _; rfl
    | cons c cs ih =>
        intro prev h'
        simp only [mapNbAux]
        rw [if_neg fun hand => (h' c (List.mem_cons_self _ _)) hand.1,
          ih (some c) fun x hx => h' x (List.mem_cons_of_mem _ hx)]
  exact haux l none h

theorem plain_ne (c t : Char) (hc : plainChar c = true) (ht : plainChar t = false) :
    c ≠ t := by
  intro h
  rw [h, ht] at hc
  exact Bool.noConfusion hc

theorem applyReplacements_plain (l : List Char) (h : ∀ c ∈ l, plainChar c = true) :
    applyReplacements l = l := by
  have hid : ∀ (t r : Char) (cond : Option Char → Option Char → Bool),
      plainChar t = false → subPass t r cond l = l := fun t r cond ht =>
    subPass_id t r cond l (fun c hc => plain_ne c t (h c hc) ht)
  simp only [applyReplacements]
  rw [hid 'O' '0' condWordBoundary (by decide)]
  rw [hid 'o' '0' condWordBoundary (by decide)]
  rw [hid 'O' '0' condBeforeDot (by decide)]
  rw [hid 'O' '0' condBetweenDigits (by decide)]
  rw [hid 'O' '0' condStartBeforeDigit (by decide)]
  rw [hid 'O' '0' condDigitEnd (by decide)]
  rw [hid 'O' '0' condAfterDotBeforeDigit (by decide)]
  rw [hid 'O' '0' condAfterDotEnd (by decide)]
  rw [hid 'l' '1' condWordBoundary (by decide)]
  rw [hid 'I' '1' condWordBoundary (by decide)]
  rw [hid 'l' '1' condBeforeDot (by decide)]
  rw [hid 'I' '1' condBeforeDot (by decide)]
  rw [hid 'l' '1' condStartBeforeDigit (by decide)]
  rw [hid 'I' '1' condStartBeforeDigit (by decide)]
  rw [hid 'l' '1' condAfterDot (by decide)]
  rw [hid 'I' '1' condAfterDot (by decide)]
  rw [hid 'b' '6' condDigitThenDigitOrDot (by decide)]
  rw [hid 'b' '6' condDigitEnd (by decide)]
  rw [hid 'B' '8' condDigitThenDigitOrDot (by decide)]
  rw [hid 'S' '5' condDigitThenDigitOrDot (by decide)]
  rw [hid 'Z' '2' condDigitThenDigitOrDot (by decide)]

theorem dropWhile_of_head_false {p : Char → Bool} :
    ∀ {l : List Char}, (∀ c ∈ l, p c = false) → l.dropWhile p = l
  | [], _ => rfl
  | c :: cs, h => by
      rw [List.dropWhile_cons, if_neg (by rw [h c (List.mem_cons_self _ _)]; exact Bool.false_ne_true)]

theorem mem_of_mem_dropWhile {p : Char → Bool} :
    ∀ {l : List Char} {c : Char}, c ∈ l.dropWhile p → c ∈ l := by
  intro l
  induction l with
  | nil => intro c h; simp [List.dropWhile] at h
  | cons a as ih =>
      intro c h
      rw [List.dropWhile_cons] at h
      by_cases hp : p a = true
      · rw [if_pos hp] at h
        exact List.mem_cons_of_mem _ (ih h)
      · rw [if_neg hp] at h
        exact h

theorem spaceFix_id (l : List Char) (h : ∀ c ∈ l, Py.isSpaceChar c = false) :
    spaceFix l = l := by
  have hsp : (l.dropWhile Char.isDigit).takeWhile Py.isSpaceChar = [] := by
    rcases hd : l.dropWhile Char.isDigit with _ | ⟨c, cs⟩
    · rfl
    · have hc : c ∈ l := mem_of_mem_dropWhile (hd ▸ List.mem_cons_self _ _)
      rw [List.takeWhile_cons, if_neg (by rw [h c hc]; exact Bool.false_ne_true)]
  simp only [spaceFix]
  rw [if_neg fun hand => hand.2.1 hsp]

theorem keepNumeric_id (l : List Char) (h : ∀ c ∈ l, plainChar c = true) :
    keepNumeric l = l :=
  List.filter_eq_self.mpr h

theorem fixDots_id (l : List Char) (h : l.count '.' ≤ 1) : fixDots l = l := by
  unfold fixDots
  rw [if_neg (by omega)]

theorem plain_not_space (c : Char) (h : plainChar c = true) :
    Py.isSpaceChar c = false := by
  rcases (show c.isDigit = true ∨ c = '.' by simpa [plainChar] using h) with hd | he
  · unfold Py.isSpaceChar
    simp only [decide_eq_false_iff_not]
    intro hsp
    rcases hsp with rfl | rfl | rfl | rfl | rfl | rfl <;> exact absurd hd (by decide)
  · have : c = '.' := by simpa using he
    subst this; decide

theorem strip_id (l : List Char) (h : ∀ c ∈ l, Py.isSpaceChar c = false) :
    Py.strip ⟨l⟩ = ⟨l⟩ := by
  unfold Py.strip
  have h1 : l.dropWhile Py.isSpaceChar = l := dropWhile_of_head_false h
  have h2 : l.reverse.dropWhile Py.isSpaceChar = l.reverse :=
    dropWhile_of_head_false (fun c hc => h c (List.mem_reverse.mp hc))
  show (⟨((((⟨l⟩ : String).data).dropWhile Py.isSpaceChar).reverse.dropWhile
      Py.isSpaceChar).reverse⟩ : String) = ⟨l⟩
  rw [show (⟨l⟩ : String).data = l from rfl, h1, h2, List.reverse_reverse]

theorem split_at_dot (dsl r : List Char) (hl : ∀ c ∈ dsl, c ≠ '.') :
    (dsl ++ '.' :: r).takeWhile (· ≠ '.') = dsl ∧
    (dsl ++ '.' :: r).dropWhile (· ≠ '.') = '.' :: r := by
  induction dsl with
  | nil =>
      constructor
      · rw [List.nil_append, List.takeWhile_cons, if_neg (by simp)]
      · rw [List.nil_append, List.dropWhile_cons, if_neg (by simp)]
  | cons c cs ih =>
      have hc : c ≠ '.' := hl c (List.mem_cons_self _ _)
      obtain ⟨h1, h2⟩ := ih (fun x hx => hl x (List.mem_cons_of_mem _ hx))
      constructor
      · rw [List.cons_append, List.takeWhile_cons, if_pos (by simp [hc]), h1]
      · rw [List.cons_append, List.dropWhile_cons, if_pos (by simp [hc]), h2]

theorem no_dot_take_drop (l : List Char) (hl : ∀ c ∈ l, c ≠ '.') :
    l.takeWhile (· ≠ '.') = l ∧ l.dropWhile (· ≠ '.') = [] := by
  induction l with
  | nil => exact ⟨rfl, rfl⟩
  | cons c cs ih =>
      have hc : c ≠ '.' := hl c (List.mem_cons_self _ _)
      obtain ⟨h1, h2⟩ := ih (fun x hx => hl x (List.mem_cons_of_mem _ hx))
      constructor
      · rw [List.takeWhile_cons, if_pos (by simp [hc]), h1]
      · rw [List.dropWhile_cons, if_pos (by simp [hc]), h2]

theorem canonDec_val : ∀ (e m : ℕ), pairVal (canonDec m e) = pairVal (m, e) := by
  intro e
  induction e with
  | zero => intro m; rfl
  | succ e ih =>
      intro m
      show pairVal (if m % 10 = 0 then canonDec (m / 10) e else (m, e + 1)) = _
      split_ifs with h10
      · rw [ih (m / 10)]
        unfold pairVal
        simp only
        have hm : (m : ℚ) = ((m / 10 : ℕ) : ℚ) * 10 := by
          have hdvd := Nat.div_mul_cancel (Nat.dvd_of_mod_eq_zero h10)
          exact_mod_cast hdvd.symm
        rw [hm, pow_succ, mul_div_mul_right _ _ (by norm_num : (10:ℚ) ≠ 0)]
      · rfl

theorem normalizeCore_plain (l : List Char)
    (hplain : ∀ c ∈ l, plainChar c = true)
    (hne : l ≠ [])
    (hdot : l.count '.' ≤ 1)
    (hdig : l.any Char.isDigit = true) :
    normalizeCore ⟨l⟩ = some (parsePair l) := by
  have hns : ∀ c ∈ l, Py.isSpaceChar c = false := fun c hc => plain_not_space c (hplain c hc)
  have e0 : Py.strip ⟨l⟩ = (⟨l⟩ : String) := strip_id l hns
  have e1 : applyReplacements l = l := applyReplacements_plain l hplain
  have e2 : spaceFix l = l := spaceFix_id l hns
  have e3 : keepNumeric l = l := keepNumeric_id l hplain
  have e4 : fixDots l = l := fixDots_id l hdot
  have hsne : ¬((⟨l⟩ : String) = "") := by
    intro h
    exact hne (congrArg String.data h)
  simp only [normalizeCore, e0]
  rw [if_neg hsne]
  show (if ((fixDots (keepNumeric (spaceFix (applyReplacements l)))).any Char.isDigit)
      then some (parsePair (fixDots (keepNumeric (spaceFix (applyReplacements l)))))
      else none) = some (parsePair l)
  rw [e1, e2, e3, e4, if_pos hdig]

theorem print_roundtrip (m e : ℕ) (hfix : ¬ sciExp m e) :
    normalizeDimensionValue (pyFloatStrPair m e) = some (pairVal (m, e)) := by
  have hval : pairVal (canonDec m e) = pairVal (m, e) := canonDec_val e m
  by_cases h0 : (canonDec m e).1 = 0
  · have hstr : pyFloatStrPair m e = "0.0" := by
      simp only [pyFloatStrPair]
      rw [if_pos h0]
    rw [hstr]
    have hcore : normalizeCore "0.0" = some (0, 1) := by decide
    unfold normalizeDimensionValue
    rw [hcore, ← hval]
    unfold pairVal
    rw [h0]
    norm_num
  · set p := canonDec m e with hp
    set ds := Py.natToChars p.1 with hds
    have hdig : ∀ c ∈ ds, c.isDigit = true := fun c hc => Py.natToChars_digits p.1 c hc
    have hdne : ds ≠ [] := Py.natToChars_ne_nil p.1 h0
    have hplainds : ∀ c ∈ ds, plainChar c = true := fun c hc => by
      simp [plainChar, hdig c hc]
    have hnodot : ∀ c ∈ ds, c ≠ '.' := by
      intro c hc heq
      have hv := hdig c hc
      rw [heq] at hv
      exact absurd hv (by decide)
    have hdsval : Py.digitsToNat ds = p.1 := Py.natToChars_val p.1
    have hsci : ¬(((ds.length : ℤ) - 1 - (p.2 : ℤ) < -4) ∨
        (16 ≤ (ds.length : ℤ) - 1 - (p.2 : ℤ))) := by
      intro hor
      exact hfix ⟨h0, hor⟩
    have hstr : pyFloatStrPair m e =
        (if p.2 = 0 then (⟨ds ++ ['.', '0']⟩ : String)
         else if p.2 < ds.length then
           ⟨ds.take (ds.length - p.2) ++ '.' :: ds.drop (ds.length - p.2)⟩
         else ⟨'0' :: '.' :: (List.replicate (p.2 - ds.length) '0' ++ ds)⟩) := by
      simp only [pyFloatStrPair, ← hp, ← hds]
      rw [if_neg h0, if_neg hsci]
    rcases Nat.eq_zero_or_pos p.2 with he0 | hepos
    · -- fixed, integer value: ds ++ ".0"
      rw [hstr, if_pos he0]
      have hsplit := split_at_dot ds ['0'] hnodot
      have hplain2 : ∀ c ∈ ds ++ ['.', '0'], plainChar c = true := by
        intro c hc
        rcases List.mem_append.mp hc with hc | hc
        · exact hplainds c hc
        · rcases (show c = '.' ∨ c = '0' by simpa using hc) with rfl | rfl <;> decide
      have hcount : (ds ++ ['.', '0']).count '.' ≤ 1 := by
        rw [List.count_append]
        have : ds.count '.' = 0 := List.count_eq_zero.mpr (fun hmem => hnodot '.' hmem rfl)
        rw [this]
        decide
      have hany : (ds ++ ['.', '0']).any Char.isDigit = true :=
        List.any_eq_true.mpr ⟨'0', List.mem_append_right _ (by decide), by decide⟩
      unfold normalizeDimensionValue
      rw [normalizeCore_plain _ hplain2 (by simp [hdne]) hcount hany]
      rw [Option.map_some']
      congr 1
      unfold parsePair
      simp only [hsplit.1, hsplit.2, List.drop_succ_cons, List.drop_zero]
      rw [← hval]
      unfold pairVal
      have h00 : Py.digitsToNat ['0'] = 0 := by decide
      simp only [hdsval, he0, h00, List.length_singleton]
      push_cast
      rw [pow_one, pow_zero]
      field_simp
    · rcases Nat.lt_or_ge p.2 ds.length with hlt | hge
      · -- fixed, dot inside the digits
        rw [hstr, if_neg (by omega), if_pos hlt]
        set k := ds.length - p.2 with hk
        have htake_sub : ∀ c ∈ ds.take k, c ∈ ds := fun c hc => List.take_subset k ds hc
        have hdrop_sub : ∀ c ∈ ds.drop k, c ∈ ds := fun c hc => List.drop_subset k ds hc
        have hsplit := split_at_dot (ds.take k) (ds.drop k)
          (fun c hc => hnodot c (htake_sub c hc))
        have hplain2 : ∀ c ∈ ds.take k ++ '.' :: ds.drop k, plainChar c = true := by
          intro c hc
          rcases List.mem_append.mp hc with hc | hc
          · exact hplainds c (htake_sub c hc)
          · rcases List.mem_cons.mp hc with rfl | hc
            · decide
            · exact hplainds c (hdrop_sub c hc)
        have hcount : (ds.take k ++ '.' :: ds.drop k).count '.' ≤ 1 := by
          rw [List.count_append, List.count_cons]
          have h1 : (ds.take k).count '.' = 0 :=
            List.count_eq_zero.mpr (fun hmem => hnodot '.' (htake_sub '.' hmem) rfl)
          have h2 : (ds.drop k).count '.' = 0 :=
            List.count_eq_zero.mpr (fun hmem => hnodot '.' (hdrop_sub '.' hmem) rfl)
          rw [h1, h2]
          simp
        have hdroplen : (ds.drop k).length = p.2 := by
          rw [List.length_drop]
          omega
        obtain ⟨c0, hc0⟩ : ∃ c, c ∈ ds.drop k :=
          List.exists_mem_of_length_pos (by omega)
        have hany : (ds.take k ++ '.' :: ds.drop k).any Char.isDigit = true :=
          List.any_eq_true.mpr ⟨c0,
            List.mem_append_right _ (List.mem_cons_of_mem _ hc0),
            hdig c0 (hdrop_sub c0 hc0)⟩
        unfold normalizeDimensionValue
        rw [normalizeCore_plain _ hplain2 (by simp) hcount hany]
        rw [Option.map_some']
        congr 1
        unfold parsePair
        simp only [hsplit.1, hsplit.2, List.drop_succ_cons, List.drop_zero]
        have hm : Py.digitsToNat (ds.take k) * 10 ^ (ds.drop k).length +
            Py.digitsToNat (ds.drop k) = p.1 := by
          rw [← Py.digitsToNat_append, List.take_append_drop, hdsval]
        rw [← hval]
        unfold pairVal
        simp only [hdroplen] at hm ⊢
        rw [hm]
      · -- fixed, leading zeros: "0." ++ zeros ++ ds
        rw [hstr, if_neg (by omega), if_neg (by omega)]
        set zs := List.replicate (p.2 - ds.length) '0' with hzs
        have hzplain : ∀ c ∈ zs, plainChar c = true := by
          intro c hc
          have := List.eq_of_mem_replicate (hzs ▸ hc)
          subst this
          decide
        have hznodot : ∀ c ∈ zs, c ≠ '.' := by
          intro c hc
          have := List.eq_of_mem_replicate (hzs ▸ hc)
          subst this
          decide
        have hsplit := split_at_dot ['0'] (zs ++ ds)
          (by intro c hc; have hc0 : c = '0' := by simpa using hc
              subst hc0; decide)
        have hl : ('0' :: '.' :: (zs ++ ds) : List Char) = ['0'] ++ '.' :: (zs ++ ds) := rfl
        have hplain2 : ∀ c ∈ ('0' :: '.' :: (zs ++ ds) : List Char), plainChar c = true := by
          intro c hc
          rcases List.mem_cons.mp hc with rfl | hc
          · decide
          · rcases List.mem_cons.mp hc with rfl | hc
            · decide
            · rcases List.mem_append.mp hc with hc | hc
              · exact hzplain c hc
              · exact hplainds c hc
        have hcount : ('0' :: '.' :: (zs ++ ds) : List Char).count '.' ≤ 1 := by
          rw [List.count_cons, List.count_cons, List.count_append]
          have h1 : zs.count '.' = 0 :=
            List.count_eq_zero.mpr (fun hmem => hznodot '.' hmem rfl)
          have h2 : ds.count '.' = 0 :=
            List.count_eq_zero.mpr (fun hmem => hnodot '.' hmem rfl)
          rw [h1, h2]
          decide
        have hany : ('0' :: '.' :: (zs ++ ds) : List Char).any Char.isDigit = true :=
          List.any_eq_true.mpr ⟨'0', List.mem_cons_self _ _, by decide⟩
        unfold normalizeDimensionValue
        rw [normalizeCore_plain _ hplain2 (by simp) hcount hany]
        rw [Option.map_some']
        congr 1
        unfold parsePair
        rw [hl]
        simp only [hsplit.1, hsplit.2, List.drop_succ_cons, List.drop_zero]
        have hfplen : (zs ++ ds).length = p.2 := by
          rw [List.length_append, hzs, List.length_replicate]
          omega
        have hfpval : Py.digitsToNat (zs ++ ds) = p.1 := by
          rw [Py.digitsToNat_append, hzs, Py.digitsToNat_replicate_zero, hdsval]
          ring
        have hip : Py.digitsToNat ['0'] = 0 := by decide
        rw [← hval]
        unfold pairVal
        simp only [hfplen, hfpval, hip]
        push_cast
        ring

end Ingestor

/-- Counterexample to C9: normalization is not idempotent.  `"0.00001"`
normalizes to `1e-05`, whose `str()` form `"1e-05"` re-normalizes to
`105.0` (the `[^\d.]` cleanup deletes the `e` and the sign). -/
theorem C9_counterexample :
    Ingestor.renormalize "0.00001" = some 105 ∧
    Ingestor.normalizeDimensionValue "0.00001" = some (1/100000) ∧
    (105 : ℚ) ≠ 1/100000 := by
  have h1 : Ingestor.normalizeCore "0.00001" = some (1, 5) := by decide
  have h2 : Ingestor.pyFloatStrPair 1 5 = "1e-05" := by decide
  have h3 : Ingestor.normalizeCore "1e-05" = some (105, 0) := by decide
  refine ⟨?_, ?_, by norm_num⟩
  · simp only [Ingestor.renormalize, h1, Ingestor.normalizeDimensionValue, h2, h3,
      Option.map_some']
    simp [Ingestor.pairVal]
  · simp only [Ingestor.normalizeDimensionValue, h1, Option.map_some']
    simp [Ingestor.pairVal]
    norm_num

/-- C9 (amended): normalization is idempotent for every string input whose
normalized value prints in plain decimal notation (value 0 or in
`[10⁻⁴, 10¹⁶)`): feeding the result back through `str()` and
`_normalize_dimension_value` reproduces it.  Outside that range `str()`
uses scientific notation, which the `[^\d.]` cleanup destroys (see the
counterexample). -/
theorem C9_normalize_idempotent_plain (x : String) (m e : ℕ)
    (h : Ingestor.normalizeCore x = some (m, e))
    (hfix : ¬ Ingestor.sciExp m e) :
    Ingestor.renormalize x = Ingestor.normalizeDimensionValue x := by
  simp only [Ingestor.renormalize, h, Ingestor.normalizeDimensionValue, Option.map_some']
  exact Ingestor.print_roundtrip m e hfix

/-- Witness for C9 (amended): `"4.79"` re-normalizes to itself. -/
theorem C9_normalize_idempotent_plain_witness :
    Ingestor.renormalize "4.79" = Ingestor.normalizeDimensionValue "4.79" :=
  C9_normalize_idempotent_plain "4.79" 479 2 (by decide) (by decide)

